import Mathlib

/-!
Verification development for the EZ compiler front-end
(preprocessor, parser inline expansion, IR code generator, peephole optimizer).

Each Rust source item is translated into an executable Lean definition; the
claims of the specification are then settled as theorems about those
definitions.  Definitions whose Rust source is not part of the repository
snapshot (the `check!` macro, the `utils` value module, `POINTER_SIZE`,
`from_parse_type`, `from_token_binary`/`from_token_unary`, and the IR back-end
execution contract) are modelled from the specification and marked as such in
their doc comments.
-/

set_option maxHeartbeats 1600000

namespace EZ

/-- Token tags, translated from `src/utils/token.rs` (`enum TokenType`).
Positions are metadata and two tokens compare equal iff their tags do, so the
embedding keeps only the tag. `LexNumber` is modelled as `Int`. -/
inductive TokenType where
  | AddAssign | SubAssign | MulAssign | DivAssign | ModAssign
  | ShlAssign | ShrAssign | BXorAssign | BAndAssign | BOrAssign
  | PowAssign | LXorAssign | LAndAssign | LOrAssign
  | LAnd | LOr | LNot | LXor
  | Inc | Dec | Arrow | Colon
  | Eq | Neq | Lt | Gt | Le | Ge
  | Add | Sub | Mul | Div | Pow | Mod | Shl | Shr
  | BAnd | BNot | BOr | BXor
  | LSquare | RSquare | LParen | RParen | LCurly | RCurly
  | Assign | Comma | Dot | Path | Eol | Eof | TernaryIf
  | Char (c : Int)
  | Identifier (s : String)
  | Number (n : Int)
  | String (s : String)
  | Keyword (s : String)
  | PreprocessorStatement (s : String)

/-- The key type for token tags: a numeric discriminant plus the `Int` and
`String` payloads (defaulted when absent). -/
abbrev TokenKey : Type := Nat × Int × String

/-- Injective key of a token tag.  Equality of tokens is decided through this
key, which keeps the decision procedure linear in the number of
constructors. -/
def TokenType.key : TokenType → TokenKey
  | .AddAssign => (0, 0, "") | .SubAssign => (1, 0, "")
  | .MulAssign => (2, 0, "") | .DivAssign => (3, 0, "")
  | .ModAssign => (4, 0, "") | .ShlAssign => (5, 0, "")
  | .ShrAssign => (6, 0, "") | .BXorAssign => (7, 0, "")
  | .BAndAssign => (8, 0, "") | .BOrAssign => (9, 0, "")
  | .PowAssign => (10, 0, "") | .LXorAssign => (11, 0, "")
  | .LAndAssign => (12, 0, "") | .LOrAssign => (13, 0, "")
  | .LAnd => (14, 0, "") | .LOr => (15, 0, "")
  | .LNot => (16, 0, "") | .LXor => (17, 0, "")
  | .Inc => (18, 0, "") | .Dec => (19, 0, "")
  | .Arrow => (20, 0, "") | .Colon => (21, 0, "")
  | .Eq => (22, 0, "") | .Neq => (23, 0, "")
  | .Lt => (24, 0, "") | .Gt => (25, 0, "")
  | .Le => (26, 0, "") | .Ge => (27, 0, "")
  | .Add => (28, 0, "") | .Sub => (29, 0, "")
  | .Mul => (30, 0, "") | .Div => (31, 0, "")
  | .Pow => (32, 0, "") | .Mod => (33, 0, "")
  | .Shl => (34, 0, "") | .Shr => (35, 0, "")
  | .BAnd => (36, 0, "") | .BNot => (37, 0, "")
  | .BOr => (38, 0, "") | .BXor => (39, 0, "")
  | .LSquare => (40, 0, "") | .RSquare => (41, 0, "")
  | .LParen => (42, 0, "") | .RParen => (43, 0, "")
  | .LCurly => (44, 0, "") | .RCurly => (45, 0, "")
  | .Assign => (46, 0, "") | .Comma => (47, 0, "")
  | .Dot => (48, 0, "") | .Path => (49, 0, "")
  | .Eol => (50, 0, "") | .Eof => (51, 0, "")
  | .TernaryIf => (52, 0, "")
  | .Char c => (53, c, "")
  | .Identifier s => (54, 0, s)
  | .Number n => (55, n, "")
  | .String s => (56, 0, s)
  | .Keyword s => (57, 0, s)
  | .PreprocessorStatement s => (58, 0, s)

/-- Partial inverse of `TokenType.key`. -/
def TokenType.ofKey : TokenKey → Option TokenType
  | (0, _, _) => some .AddAssign | (1, _, _) => some .SubAssign
  | (2, _, _) => some .MulAssign | (3, _, _) => some .DivAssign
  | (4, _, _) => some .ModAssign | (5, _, _) => some .ShlAssign
  | (6, _, _) => some .ShrAssign | (7, _, _) => some .BXorAssign
  | (8, _, _) => some .BAndAssign | (9, _, _) => some .BOrAssign
  | (10, _, _) => some .PowAssign | (11, _, _) => some .LXorAssign
  | (12, _, _) => some .LAndAssign | (13, _, _) => some .LOrAssign
  | (14, _, _) => some .LAnd | (15, _, _) => some .LOr
  | (16, _, _) => some .LNot | (17, _, _) => some .LXor
  | (18, _, _) => some .Inc | (19, _, _) => some .Dec
  | (20, _, _) => some .Arrow | (21, _, _) => some .Colon
  | (22, _, _) => some .Eq | (23, _, _) => some .Neq
  | (24, _, _) => some .Lt | (25, _, _) => some .Gt
  | (26, _, _) => some .Le | (27, _, _) => some .Ge
  | (28, _, _) => some .Add | (29, _, _) => some .Sub
  | (30, _, _) => some .Mul | (31, _, _) => some .Div
  | (32, _, _) => some .Pow | (33, _, _) => some .Mod
  | (34, _, _) => some .Shl | (35, _, _) => some .Shr
  | (36, _, _) => some .BAnd | (37, _, _) => some .BNot
  | (38, _, _) => some .BOr | (39, _, _) => some .BXor
  | (40, _, _) => some .LSquare | (41, _, _) => some .RSquare
  | (42, _, _) => some .LParen | (43, _, _) => some .RParen
  | (44, _, _) => some .LCurly | (45, _, _) => some .RCurly
  | (46, _, _) => some .Assign | (47, _, _) => some .Comma
  | (48, _, _) => some .Dot | (49, _, _) => some .Path
  | (50, _, _) => some .Eol | (51, _, _) => some .Eof
  | (52, _, _) => some .TernaryIf
  | (53, c, _) => some (.Char c)
  | (54, _, s) => some (.Identifier s)
  | (55, n, _) => some (.Number n)
  | (56, _, s) => some (.String s)
  | (57, _, s) => some (.Keyword s)
  | (58, _, s) => some (.PreprocessorStatement s)
  | _ => none

theorem tokenKey_roundtrip (t : TokenType) : TokenType.ofKey t.key = some t := by
  cases t <;> rfl

instance : DecidableEq TokenType := fun a b =>
  if h : a.key = b.key then
    .isTrue (Option.some.inj
      (((tokenKey_roundtrip a).symm.trans (congrArg TokenType.ofKey h)).trans
        (tokenKey_roundtrip b)))
  else
    .isFalse (fun e => h (congrArg TokenType.key e))

/-- Modelled from the spec: the pointer size is a design constant `P ≥ 2`
(`POINTER_SIZE` lives in the `utils` value module, absent from the snapshot).
We fix the least admissible value. -/
def POINTER_SIZE : Nat := 2

/-- Compile-time value types, modelled from the spec ("**Type.** Sum of:
Number, Boolean, Char, None, Ref(Type), Pointer(Type), ...") for the missing
`utils` value module; only the variants reachable in `src/core/ir_code.rs`
are included (struct/array/function types hit `todo!()` paths there). -/
inductive ValType where
  | Number
  | Boolean
  | Char
  | None
  | Ref (t : ValType)
  | Pointer (t : ValType)
deriving DecidableEq

/-- Byte size of a type, modelled from the spec: Number 1, Boolean 1, Char 1,
None 0, Pointer and Ref the pointer size `P`. -/
def ValType.get_size : ValType → Nat
  | .Number => 1
  | .Boolean => 1
  | .Char => 1
  | .None => 0
  | .Ref _ => POINTER_SIZE
  | .Pointer _ => POINTER_SIZE

/-- IR operand values, modelled from the spec ("**Value.** ... `Num(i8)`,
`Bool(bool)`, `Char(u8)`, `Index(offset, Type)`, `Ref(offset, Type)`,
`Pointer(offset, Type)`, `None`") for the missing `utils` value module.
`i8`/`u8` payloads are carried as `Int`. -/
inductive Val where
  | Num (n : Int)
  | Bool (b : Bool)
  | Char (c : Int)
  | Index (off : Nat) (t : ValType)
  | Ref (off : Nat) (t : ValType)
  | Pointer (off : Nat) (t : ValType)
  | None
deriving DecidableEq

/-- Type of a value (`Val::r#type` of the missing value module, modelled from
the spec: literals have their literal type, `Index(_, T)` has type `T`,
`Ref`/`Pointer` wrap the pointee type). -/
def Val.typeOf : Val → ValType
  | .Num _ => .Number
  | .Bool _ => .Boolean
  | .Char _ => .Char
  | .Index _ t => t
  | .Ref _ t => .Ref t
  | .Pointer _ t => .Pointer t
  | .None => .None

/-- Byte size of a value (`Val::get_size`), its type size. -/
def Val.get_size (v : Val) : Nat := v.typeOf.get_size

/-- Three-address IR instructions, translated from the instruction set used by
`src/core/ir_code.rs` and `src/core/ir_optimizer.rs` (the enum itself lives in
the missing `utils` module; the spec lists the same representative set). -/
inductive Instruction where
  | Add (a b : Val)
  | Sub (a b : Val)
  | Mul (a b : Val)
  | Div (a b : Val)
  | Mod (a b : Val)
  | Pow (a b : Val)
  | Shl (a b : Val)
  | Shr (a b : Val)
  | BAnd (a b : Val)
  | BOr (a b : Val)
  | BXor (a b : Val)
  | BNot (a : Val)
  | LAnd (a b : Val)
  | LOr (a b : Val)
  | LNot (a : Val)
  | LXor (a b : Val)
  | Eq (a b : Val)
  | Neq (a b : Val)
  | Lt (a b : Val)
  | Le (a b : Val)
  | Neg (a : Val)
  | Inc (a : Val)
  | Dec (a : Val)
  | Copy (a : Val)
  | Deref (a : Val)
  | DerefRef (a : Val)
  | DerefAssign (a b : Val)
  | DerefAssignRef (a b : Val)
  | If (cond : Val) (marker : Nat) (hasElse : Bool)
  | Else (marker : Nat)
  | EndIf (marker : Nat) (hasElse : Bool)
  | While (cond : Val)
  | EndWhile (cond : Val)
  | TernaryIf (c t e : Val)
  | Print (a : Val)
  | Ascii (a : Val)
  | Input
  | Call (f : Nat) (args : List Val)

/-- Injective key of an instruction: a numeric discriminant plus the operand
values, `Nat` payloads (markers, function ids) and `Bool` payloads.  Equality
of instructions is decided through this key, keeping the decision procedure
linear in the number of constructors. -/
def Instruction.key : Instruction → Nat × List Val × List Nat × List Bool
  | .Add a b => (0, [a, b], [], []) | .Sub a b => (1, [a, b], [], [])
  | .Mul a b => (2, [a, b], [], []) | .Div a b => (3, [a, b], [], [])
  | .Mod a b => (4, [a, b], [], []) | .Pow a b => (5, [a, b], [], [])
  | .Shl a b => (6, [a, b], [], []) | .Shr a b => (7, [a, b], [], [])
  | .BAnd a b => (8, [a, b], [], []) | .BOr a b => (9, [a, b], [], [])
  | .BXor a b => (10, [a, b], [], []) | .BNot a => (11, [a], [], [])
  | .LAnd a b => (12, [a, b], [], []) | .LOr a b => (13, [a, b], [], [])
  | .LNot a => (14, [a], [], []) | .LXor a b => (15, [a, b], [], [])
  | .Eq a b => (16, [a, b], [], []) | .Neq a b => (17, [a, b], [], [])
  | .Lt a b => (18, [a, b], [], []) | .Le a b => (19, [a, b], [], [])
  | .Neg a => (20, [a], [], []) | .Inc a => (21, [a], [], [])
  | .Dec a => (22, [a], [], []) | .Copy a => (23, [a], [], [])
  | .Deref a => (24, [a], [], []) | .DerefRef a => (25, [a], [], [])
  | .DerefAssign a b => (26, [a, b], [], [])
  | .DerefAssignRef a b => (27, [a, b], [], [])
  | .If c m h => (28, [c], [m], [h])
  | .Else m => (29, [], [m], [])
  | .EndIf m h => (30, [], [m], [h])
  | .While c => (31, [c], [], [])
  | .EndWhile c => (32, [c], [], [])
  | .TernaryIf c t e => (33, [c, t, e], [], [])
  | .Print a => (34, [a], [], []) | .Ascii a => (35, [a], [], [])
  | .Input => (36, [], [], [])
  | .Call f args => (37, args, [f], [])

/-- Partial inverse of `Instruction.key`. -/
def Instruction.ofKey : Nat × List Val × List Nat × List Bool →
    Option Instruction
  | (0, [a, b], _, _) => some (.Add a b) | (1, [a, b], _, _) => some (.Sub a b)
  | (2, [a, b], _, _) => some (.Mul a b) | (3, [a, b], _, _) => some (.Div a b)
  | (4, [a, b], _, _) => some (.Mod a b) | (5, [a, b], _, _) => some (.Pow a b)
  | (6, [a, b], _, _) => some (.Shl a b) | (7, [a, b], _, _) => some (.Shr a b)
  | (8, [a, b], _, _) => some (.BAnd a b) | (9, [a, b], _, _) => some (.BOr a b)
  | (10, [a, b], _, _) => some (.BXor a b) | (11, [a], _, _) => some (.BNot a)
  | (12, [a, b], _, _) => some (.LAnd a b) | (13, [a, b], _, _) => some (.LOr a b)
  | (14, [a], _, _) => some (.LNot a) | (15, [a, b], _, _) => some (.LXor a b)
  | (16, [a, b], _, _) => some (.Eq a b) | (17, [a, b], _, _) => some (.Neq a b)
  | (18, [a, b], _, _) => some (.Lt a b) | (19, [a, b], _, _) => some (.Le a b)
  | (20, [a], _, _) => some (.Neg a) | (21, [a], _, _) => some (.Inc a)
  | (22, [a], _, _) => some (.Dec a) | (23, [a], _, _) => some (.Copy a)
  | (24, [a], _, _) => some (.Deref a) | (25, [a], _, _) => some (.DerefRef a)
  | (26, [a, b], _, _) => some (.DerefAssign a b)
  | (27, [a, b], _, _) => some (.DerefAssignRef a b)
  | (28, [c], [m], [h]) => some (.If c m h)
  | (29, _, [m], _) => some (.Else m)
  | (30, _, [m], [h]) => some (.EndIf m h)
  | (31, [c], _, _) => some (.While c)
  | (32, [c], _, _) => some (.EndWhile c)
  | (33, [c, t, e], _, _) => some (.TernaryIf c t e)
  | (34, [a], _, _) => some (.Print a) | (35, [a], _, _) => some (.Ascii a)
  | (36, _, _, _) => some .Input
  | (37, args, [f], _) => some (.Call f args)
  | _ => none

theorem instrKey_roundtrip (i : Instruction) :
    Instruction.ofKey i.key = some i := by
  cases i <;> rfl

instance : DecidableEq Instruction := fun a b =>
  if h : a.key = b.key then
    .isTrue (Option.some.inj
      (((instrKey_roundtrip a).symm.trans (congrArg Instruction.ofKey h)).trans
        (instrKey_roundtrip b)))
  else
    .isFalse (fun e => h (congrArg Instruction.key e))

/-- Destination of an instruction: optional `(offset, size)` plus the memory
cursor snapshot at emission (`(Option<(usize, usize)>, usize)` pairs pushed by
`src/core/ir_code.rs`). -/
abbrev Assign := Option (Nat × Nat) × Nat

/-- The instruction stream: a list of `(destination, instruction)` pairs
(`Instructions` in the missing `utils` module; iteration order in
`src/core/ir_optimizer.rs` is push order). -/
abbrev Instructions := List (Assign × Instruction)

/-- Append an instruction with its destination (`Instructions::push`). -/
def Instructions.push (code : Instructions) (i : Instruction) (a : Assign) :
    Instructions :=
  code ++ [(a, i)]

/-! ## Peephole optimizer, translated from `src/core/ir_optimizer.rs` -/

/-- The optimizer value map `vars : HashMap<usize, Val>`, modelled as an
association list with insert-replaces semantics. -/
abbrev VarsMap := List (Nat × Val)

/-- Lookup in the optimizer value map (`HashMap::get`). -/
def VarsMap.get (vars : VarsMap) (k : Nat) : Option Val :=
  match vars with
  | [] => Option.none
  | (k1, v) :: rest => if k1 = k then some v else VarsMap.get rest k

/-- Insert into the optimizer value map (`HashMap::insert`, replacing any
previous binding). -/
def VarsMap.insert (vars : VarsMap) (k : Nat) (v : Val) : VarsMap :=
  match vars with
  | [] => [(k, v)]
  | (k1, v1) :: rest =>
      if k1 = k then (k1, v) :: rest else (k1, v1) :: VarsMap.insert rest k v

/-- Operand substitution attempt, translated from the `TernaryIf` arm of
`src/core/ir_optimizer.rs` (lines 133-157): an `Index` operand is replaced by
its known value provided that value is not itself an `Index`; a non-`Index`
operand is already substitutable as itself; otherwise the attempt fails. -/
def substOperand (vars : VarsMap) (v : Val) : Option Val :=
  match v with
  | .Index i _ =>
      match vars.get i with
      | some (.Index _ _) => Option.none
      | Option.none => Option.none
      | some w => some w
  | _ => some v

/-- Modelled from the spec: the `check!` macro of the optimizer is not in the
repository snapshot.  Per the spec ("attempt to substitute in the current
`vars` map. Substitution only fires when the known value is not itself an
`Index`"), an operand is replaced by its known non-`Index` value and kept
unchanged otherwise. -/
def substVal (vars : VarsMap) (v : Val) : Val :=
  match v with
  | .Index i t =>
      match vars.get i with
      | some (.Index _ _) => .Index i t
      | Option.none => .Index i t
      | some w => w
  | _ => v

/-- Modelled from the spec: after emitting a rewritten `Copy`, "its
destination slot's new known value is inserted into `vars`" — a copied
non-`Index` operand becomes the known value of the destination slot (this is
what lets `Copy(Num(4))@0; Mul(Index(0),Index(0))` fold to `Pow(Num(4), 2)`
in the spec's scenario 3).  Other substituted instructions give their
destination no known value. -/
def recordCopy (vars : VarsMap) (assign : Assign) (v : Val) : VarsMap :=
  match v with
  | .Index _ _ => vars
  | _ =>
      match assign.1 with
      | some (d, _) => vars.insert d v
      | Option.none => vars

/-- The lookup performed by the identity-elimination arm of `optimize`
(`src/core/ir_optimizer.rs` lines 15-26): an `Index` operand must have a known
value (of any shape) or the instruction is forwarded unchanged; a non-`Index`
operand stands for itself. -/
def identityLookup (vars : VarsMap) (a : Val) : Option Val :=
  match a with
  | .Index i _ => vars.get i
  | _ => some a

/-- One pass of the peephole optimizer, translated arm by arm from
`pub fn optimize` in `src/core/ir_optimizer.rs`.  The result is `none` exactly
where the Rust code panics (`assign.0.unwrap()` on a missing destination, the
`unreachable!()` in the `Call` arm, and the `todo!()` fallthrough). -/
def optimizeGo (vars : VarsMap) (out : Instructions) :
    Instructions → Option Instructions
  | [] => some out
  | (assign, instruction) :: rest =>
    -- helper mirroring line 205: `vars.insert(assign.0.unwrap().0, optimize)`
    let insertAndGo : Val → Option Instructions := fun v =>
      match assign.1 with
      | some (d, _) => optimizeGo (vars.insert d v) out rest
      | Option.none => Option.none
    let pushGo : Instruction → Option Instructions := fun i =>
      optimizeGo vars (out.push i assign) rest
    -- the literal patterns `Add(a, Num(0))`, `Mul(a, Num(1))`, ... of the
    -- Rust match are rendered as equality tests, preserving arm order
    let identityArm : Val → Instruction → Option Instructions := fun a i =>
      match identityLookup vars a with
      | Option.none => pushGo i
      | some v => insertAndGo v
    match instruction with
    | .Add a b =>
        if b = .Num 0 then identityArm a (.Add a b)
        else pushGo (.Add (substVal vars a) (substVal vars b))
    | .Sub a b =>
        if b = .Num 0 then identityArm a (.Sub a b)
        else pushGo (.Sub (substVal vars a) (substVal vars b))
    | .Div a b =>
        if b = .Num 1 then identityArm a (.Div a b)
        else pushGo (.Div (substVal vars a) (substVal vars b))
    | .Mul left right =>
        if right = .Num 1 then identityArm left (.Mul left right)
        else if right = .Num 0 then insertAndGo (.Num 0)
        else if left = right then
          match identityLookup vars left with
          | Option.none => pushGo (.Mul left right)
          | some v => pushGo (.Pow v (.Num 2))
        else if right = .Num (-1) then
          match identityLookup vars left with
          | Option.none => pushGo (.Mul left right)
          | some v => pushGo (.Neg v)
        else
          pushGo (.Mul (substVal vars left) (substVal vars right))
    | .Input => pushGo .Input
    | .Mod a b => pushGo (.Mod (substVal vars a) (substVal vars b))
    | .Eq a b => pushGo (.Eq (substVal vars a) (substVal vars b))
    | .LAnd a b => pushGo (.LAnd (substVal vars a) (substVal vars b))
    | .LOr a b => pushGo (.LOr (substVal vars a) (substVal vars b))
    | .Lt a b => pushGo (.Lt (substVal vars a) (substVal vars b))
    | .Le a b => pushGo (.Le (substVal vars a) (substVal vars b))
    | .LNot a => pushGo (.LNot (substVal vars a))
    | .Neg a => pushGo (.Neg (substVal vars a))
    | .Inc a => pushGo (.Inc (substVal vars a))
    | .Dec a => pushGo (.Dec (substVal vars a))
    | .Print a => pushGo (.Print (substVal vars a))
    | .Ascii a => pushGo (.Ascii (substVal vars a))
    | .Neq a b => pushGo (.Neq (substVal vars a) (substVal vars b))
    | .Pow a b => pushGo (.Pow (substVal vars a) (substVal vars b))
    | .Shl a b => pushGo (.Shl (substVal vars a) (substVal vars b))
    | .Shr a b => pushGo (.Shr (substVal vars a) (substVal vars b))
    | .BAnd a b => pushGo (.BAnd (substVal vars a) (substVal vars b))
    | .BOr a b => pushGo (.BOr (substVal vars a) (substVal vars b))
    | .BXor a b => pushGo (.BXor (substVal vars a) (substVal vars b))
    | .BNot a => pushGo (.BNot (substVal vars a))
    | .Copy v =>
        let w := substVal vars v
        optimizeGo (recordCopy vars assign w) (out.push (.Copy w) assign) rest
    | .TernaryIf cond1 then1 else1 =>
        let cond := substOperand vars cond1
        let then_ := substOperand vars then1
        let else_ := substOperand vars else1
        let newIns : Instruction :=
          match cond, then_, else_ with
          | some c, some t, Option.none => .TernaryIf c t else1
          | Option.none, Option.none, some e => .TernaryIf cond1 then1 e
          | Option.none, some t, Option.none => .TernaryIf cond1 t else1
          | Option.none, some t, some e => .TernaryIf cond1 t e
          | some c, Option.none, Option.none => .TernaryIf c then1 else1
          | some c, Option.none, some e => .TernaryIf c then1 e
          | Option.none, Option.none, Option.none => instruction
          | some _, some _, some _ => instruction
        pushGo newIns
    | .LXor a b => pushGo (.LXor (substVal vars a) (substVal vars b))
    | .Call f args =>
        let step : Option (List Val) → Val → Option (List Val) := fun acc arg =>
          match acc with
          | Option.none => Option.none
          | some new =>
              match arg with
              | .Index i _ =>
                  match vars.get i with
                  | some (.Index _ _) => Option.none
                  | Option.none => Option.none
                  | some a => some (new ++ [a])
              | _ => some new
        match args.foldl step (some []) with
        | Option.none => Option.none
        | some new => pushGo (.Call f new)
    | _ => Option.none

/-- `optimize` of `src/core/ir_optimizer.rs`: walk the instruction list once
with an empty value map, starting from an empty output. -/
def optimize (code : Instructions) : Option Instructions :=
  optimizeGo [] [] code

/-! ## Back-end execution contract

Modelled from the spec: the IR back-end is an external collaborator; its
contract is "allocate a flat byte array of size equal to the final cursor
value and execute the instructions top-to-bottom, storing results into the
destination slot if any".  The evaluator below gives the evident arithmetic
meaning to instructions over literal operands (8-bit two's-complement
wrap-around, truncating division as in the `i8` payloads of `Val`) and is
undefined elsewhere — enough to state semantic preservation for sequences
whose operands are all literal constants. -/

/-- Two's-complement wrap of an integer into the `i8` range. -/
def i8wrap (x : Int) : Int := (x + 128).emod 256 - 128

/-- Unsigned 8-bit pattern of an integer. -/
def u8 (x : Int) : Nat := (x.emod 256).toNat

/-- Reinterpret an unsigned 8-bit pattern as a signed `i8`. -/
def ofU8 (n : Nat) : Int := if n < 128 then (n : Int) else (n : Int) - 256

/-- Literal constants (`Num`, `Bool`, `Char`). -/
def isLit : Val → Bool
  | .Num _ => true
  | .Bool _ => true
  | .Char _ => true
  | _ => false

/-- Value computed by one instruction over literal operands; `none` where the
instruction is not a value-producing operation on literals (modelled from the
spec's back-end contract). -/
def evalInstr : Instruction → Option Val
  | .Add (.Num a) (.Num b) => some (.Num (i8wrap (a + b)))
  | .Sub (.Num a) (.Num b) => some (.Num (i8wrap (a - b)))
  | .Mul (.Num a) (.Num b) => some (.Num (i8wrap (a * b)))
  | .Div (.Num a) (.Num b) =>
      if b = 0 then Option.none else some (.Num (i8wrap (a.tdiv b)))
  | .Mod (.Num a) (.Num b) =>
      if b = 0 then Option.none else some (.Num (i8wrap (a.tmod b)))
  | .Pow (.Num a) (.Num b) =>
      if b < 0 then Option.none else some (.Num (i8wrap (a ^ b.toNat)))
  | .Shl (.Num a) (.Num b) =>
      if 0 ≤ b ∧ b < 8 then some (.Num (i8wrap (a * 2 ^ b.toNat)))
      else Option.none
  | .Shr (.Num a) (.Num b) =>
      if 0 ≤ b ∧ b < 8 then some (.Num (Int.fdiv a (2 ^ b.toNat)))
      else Option.none
  | .BAnd (.Num a) (.Num b) => some (.Num (ofU8 (Nat.land (u8 a) (u8 b))))
  | .BOr (.Num a) (.Num b) => some (.Num (ofU8 (Nat.lor (u8 a) (u8 b))))
  | .BXor (.Num a) (.Num b) => some (.Num (ofU8 (Nat.xor (u8 a) (u8 b))))
  | .BNot (.Num a) => some (.Num (ofU8 (255 - u8 a)))
  | .LAnd (.Bool a) (.Bool b) => some (.Bool (a && b))
  | .LOr (.Bool a) (.Bool b) => some (.Bool (a || b))
  | .LXor (.Bool a) (.Bool b) => some (.Bool (xor a b))
  | .LNot (.Bool a) => some (.Bool (!a))
  | .Eq (.Num a) (.Num b) => some (.Bool (decide (a = b)))
  | .Eq (.Bool a) (.Bool b) => some (.Bool (decide (a = b)))
  | .Eq (.Char a) (.Char b) => some (.Bool (decide (a = b)))
  | .Neq (.Num a) (.Num b) => some (.Bool (decide (a ≠ b)))
  | .Neq (.Bool a) (.Bool b) => some (.Bool (decide (a ≠ b)))
  | .Neq (.Char a) (.Char b) => some (.Bool (decide (a ≠ b)))
  | .Lt (.Num a) (.Num b) => some (.Bool (decide (a < b)))
  | .Lt (.Char a) (.Char b) => some (.Bool (decide (a < b)))
  | .Le (.Num a) (.Num b) => some (.Bool (decide (a ≤ b)))
  | .Le (.Char a) (.Char b) => some (.Bool (decide (a ≤ b)))
  | .Neg (.Num a) => some (.Num (i8wrap (-a)))
  | .Inc (.Num a) => some (.Num (i8wrap (a + 1)))
  | .Dec (.Num a) => some (.Num (i8wrap (a - 1)))
  | .Copy v => if isLit v then some v else Option.none
  | .TernaryIf (.Bool c) t e =>
      if isLit t && isLit e then some (if c then t else e) else Option.none
  | _ => Option.none

/-- Flat memory keyed by byte offset (slots of the 1-byte literal fragment). -/
abbrev Mem := Nat → Option Val

/-- The all-empty initial memory of a fresh back-end byte array. -/
def mem0 : Mem := fun _ => Option.none

/-- Store a result into the destination slot, if any. -/
def writeDest (m : Mem) (assign : Assign) (v : Val) : Mem :=
  match assign.1 with
  | some (off, _) => fun k => if k = off then some v else m k
  | Option.none => m

/-- Execute an instruction sequence top-to-bottom per the back-end contract,
failing where the literal evaluator is undefined. -/
def exec : Instructions → Mem → Option Mem
  | [], m => some m
  | (assign, i) :: rest, m =>
      match evalInstr i with
      | Option.none => Option.none
      | some v => exec rest (writeDest m assign v)

/-! ## The optimizer on all-literal sequences (claims C1 and C2) -/

/-- Destination offset of an emitted pair, when present. -/
def destOf (x : Assign × Instruction) : Option Nat := x.1.1.map Prod.fst

/-- Destination offsets written by a sequence. -/
def destsOf (code : Instructions) : List Nat := code.filterMap destOf

/-- Value-producing instructions whose operands are all literal constants:
the fragment over which the spec states semantic preservation. -/
def pureLit : Instruction → Bool
  | .Add a b => isLit a && isLit b
  | .Sub a b => isLit a && isLit b
  | .Mul a b => isLit a && isLit b
  | .Div a b => isLit a && isLit b
  | .Mod a b => isLit a && isLit b
  | .Pow a b => isLit a && isLit b
  | .Shl a b => isLit a && isLit b
  | .Shr a b => isLit a && isLit b
  | .BAnd a b => isLit a && isLit b
  | .BOr a b => isLit a && isLit b
  | .BXor a b => isLit a && isLit b
  | .BNot a => isLit a
  | .LAnd a b => isLit a && isLit b
  | .LOr a b => isLit a && isLit b
  | .LNot a => isLit a
  | .LXor a b => isLit a && isLit b
  | .Eq a b => isLit a && isLit b
  | .Neq a b => isLit a && isLit b
  | .Lt a b => isLit a && isLit b
  | .Le a b => isLit a && isLit b
  | .Neg a => isLit a
  | .Inc a => isLit a
  | .Dec a => isLit a
  | .Copy a => isLit a
  | .TernaryIf c t e => isLit c && isLit t && isLit e
  | _ => false

/-- Action of the single optimizer pass on one literal-operand instruction:
`none` when the instruction is deleted (identity elimination and
annihilation record the folded value instead of emitting), otherwise the
emitted replacement (squaring to `Pow`, negation to `Neg`, all else kept). -/
def rewriteOne : Instruction → Option Instruction
  | .Add a b => if b = .Num 0 then Option.none else some (.Add a b)
  | .Sub a b => if b = .Num 0 then Option.none else some (.Sub a b)
  | .Div a b => if b = .Num 1 then Option.none else some (.Div a b)
  | .Mul l r =>
      if r = .Num 1 then Option.none
      else if r = .Num 0 then Option.none
      else if l = r then some (.Pow l (.Num 2))
      else if r = .Num (-1) then some (.Neg l)
      else some (.Mul l r)
  | i => some i

/-- Image of the optimizer pass on an all-literal sequence: deleted
instructions vanish, the rest keep their destination. -/
def foldLit (code : Instructions) : Instructions :=
  code.filterMap (fun x => (rewriteOne x.2).map (fun i => (x.1, i)))

theorem isLit_shapes (v : Val) (h : isLit v = true) :
    (∃ n, v = .Num n) ∨ (∃ b, v = .Bool b) ∨ (∃ c, v = .Char c) := by
  cases v <;> simp_all [isLit]

theorem substVal_lit (vars : VarsMap) (v : Val) (h : isLit v = true) :
    substVal vars v = v := by
  cases v <;> first | rfl | simp [isLit] at h

theorem substOperand_lit (vars : VarsMap) (v : Val) (h : isLit v = true) :
    substOperand vars v = some v := by
  cases v <;> first | rfl | simp [isLit] at h

theorem identityLookup_lit (vars : VarsMap) (v : Val) (h : isLit v = true) :
    identityLookup vars v = some v := by
  cases v <;> first | rfl | simp [isLit] at h

/-- On an all-literal sequence of value-producing instructions, each with a
destination, the optimizer pass computes exactly `foldLit`: identity
eliminations and annihilations are deleted (their folded value goes to the
constant map), squarings become `Pow`, multiplications by `-1` become `Neg`,
and everything else is forwarded unchanged. -/
theorem optimizeGo_lit (code : Instructions)
    (h : ∀ x ∈ code, pureLit x.2 = true ∧ x.1.1.isSome = true) :
    ∀ vars out, optimizeGo vars out code = some (out ++ foldLit code) := by
  induction code with
  | nil => intro vars out; simp [optimizeGo, foldLit]
  | cons hd tl ih =>
    obtain ⟨⟨dest, snap⟩, i⟩ := hd
    obtain ⟨hp, hdest⟩ := h _ (List.mem_cons_self _ _)
    have htl : ∀ x ∈ tl, pureLit x.2 = true ∧ x.1.1.isSome = true :=
      fun x hx => h x (List.mem_cons_of_mem _ hx)
    have ih2 := ih htl
    obtain ⟨⟨d, sz⟩, rfl⟩ : ∃ p, dest = some p := Option.isSome_iff_exists.mp hdest
    intro vars out
    cases i with
    | Add a b =>
        simp only [pureLit, Bool.and_eq_true] at hp
        obtain ⟨ha, hb⟩ := hp
        by_cases hb0 : b = Val.Num 0
        · subst hb0
          simp [optimizeGo, identityLookup_lit _ _ ha, ih2, foldLit,
            rewriteOne]
        · simp [optimizeGo, hb0, substVal_lit _ _ ha, substVal_lit _ _ hb,
            ih2, foldLit, rewriteOne, Instructions.push]
    | Sub a b =>
        simp only [pureLit, Bool.and_eq_true] at hp
        obtain ⟨ha, hb⟩ := hp
        by_cases hb0 : b = Val.Num 0
        · subst hb0
          simp [optimizeGo, identityLookup_lit _ _ ha, ih2, foldLit,
            rewriteOne]
        · simp [optimizeGo, hb0, substVal_lit _ _ ha, substVal_lit _ _ hb,
            ih2, foldLit, rewriteOne, Instructions.push]
    | Div a b =>
        simp only [pureLit, Bool.and_eq_true] at hp
        obtain ⟨ha, hb⟩ := hp
        by_cases hb1 : b = Val.Num 1
        · subst hb1
          simp [optimizeGo, identityLookup_lit _ _ ha, ih2, foldLit,
            rewriteOne]
        · simp [optimizeGo, hb1, substVal_lit _ _ ha, substVal_lit _ _ hb,
            ih2, foldLit, rewriteOne, Instructions.push]
    | Mul a b =>
        simp only [pureLit, Bool.and_eq_true] at hp
        obtain ⟨ha, hb⟩ := hp
        by_cases hb1 : b = Val.Num 1
        · subst hb1
          simp [optimizeGo, identityLookup_lit _ _ ha, ih2, foldLit,
            rewriteOne]
        · by_cases hb0 : b = Val.Num 0
          · subst hb0
            simp [optimizeGo, hb1, ih2, foldLit, rewriteOne]
          · by_cases hlr : a = b
            · subst hlr
              simp [optimizeGo, hb1, hb0, identityLookup_lit _ _ hb,
                ih2, foldLit, rewriteOne, Instructions.push]
            · by_cases hm1 : b = Val.Num (-1)
              · subst hm1
                simp [optimizeGo, hb1, hb0, hlr,
                  identityLookup_lit _ _ ha, ih2, foldLit, rewriteOne,
                  Instructions.push]
              · simp [optimizeGo, hb1, hb0, hlr, hm1, substVal_lit _ _ ha,
                  substVal_lit _ _ hb, ih2, foldLit, rewriteOne,
                  Instructions.push]
    | Mod a b =>
        simp only [pureLit, Bool.and_eq_true] at hp
        simp [optimizeGo, substVal_lit _ _ hp.1, substVal_lit _ _ hp.2, ih2,
          foldLit, rewriteOne, Instructions.push]
    | Pow a b =>
        simp only [pureLit, Bool.and_eq_true] at hp
        simp [optimizeGo, substVal_lit _ _ hp.1, substVal_lit _ _ hp.2, ih2,
          foldLit, rewriteOne, Instructions.push]
    | Shl a b =>
        simp only [pureLit, Bool.and_eq_true] at hp
        simp [optimizeGo, substVal_lit _ _ hp.1, substVal_lit _ _ hp.2, ih2,
          foldLit, rewriteOne, Instructions.push]
    | Shr a b =>
        simp only [pureLit, Bool.and_eq_true] at hp
        simp [optimizeGo, substVal_lit _ _ hp.1, substVal_lit _ _ hp.2, ih2,
          foldLit, rewriteOne, Instructions.push]
    | BAnd a b =>
        simp only [pureLit, Bool.and_eq_true] at hp
        simp [optimizeGo, substVal_lit _ _ hp.1, substVal_lit _ _ hp.2, ih2,
          foldLit, rewriteOne, Instructions.push]
    | BOr a b =>
        simp only [pureLit, Bool.and_eq_true] at hp
        simp [optimizeGo, substVal_lit _ _ hp.1, substVal_lit _ _ hp.2, ih2,
          foldLit, rewriteOne, Instructions.push]
    | BXor a b =>
        simp only [pureLit, Bool.and_eq_true] at hp
        simp [optimizeGo, substVal_lit _ _ hp.1, substVal_lit _ _ hp.2, ih2,
          foldLit, rewriteOne, Instructions.push]
    | BNot a =>
        simp only [pureLit] at hp
        simp [optimizeGo, substVal_lit _ _ hp, ih2, foldLit, rewriteOne,
          Instructions.push]
    | LAnd a b =>
        simp only [pureLit, Bool.and_eq_true] at hp
        simp [optimizeGo, substVal_lit _ _ hp.1, substVal_lit _ _ hp.2, ih2,
          foldLit, rewriteOne, Instructions.push]
    | LOr a b =>
        simp only [pureLit, Bool.and_eq_true] at hp
        simp [optimizeGo, substVal_lit _ _ hp.1, substVal_lit _ _ hp.2, ih2,
          foldLit, rewriteOne, Instructions.push]
    | LNot a =>
        simp only [pureLit] at hp
        simp [optimizeGo, substVal_lit _ _ hp, ih2, foldLit, rewriteOne,
          Instructions.push]
    | LXor a b =>
        simp only [pureLit, Bool.and_eq_true] at hp
        simp [optimizeGo, substVal_lit _ _ hp.1, substVal_lit _ _ hp.2, ih2,
          foldLit, rewriteOne, Instructions.push]
    | Eq a b =>
        simp only [pureLit, Bool.and_eq_true] at hp
        simp [optimizeGo, substVal_lit _ _ hp.1, substVal_lit _ _ hp.2, ih2,
          foldLit, rewriteOne, Instructions.push]
    | Neq a b =>
        simp only [pureLit, Bool.and_eq_true] at hp
        simp [optimizeGo, substVal_lit _ _ hp.1, substVal_lit _ _ hp.2, ih2,
          foldLit, rewriteOne, Instructions.push]
    | Lt a b =>
        simp only [pureLit, Bool.and_eq_true] at hp
        simp [optimizeGo, substVal_lit _ _ hp.1, substVal_lit _ _ hp.2, ih2,
          foldLit, rewriteOne, Instructions.push]
    | Le a b =>
        simp only [pureLit, Bool.and_eq_true] at hp
        simp [optimizeGo, substVal_lit _ _ hp.1, substVal_lit _ _ hp.2, ih2,
          foldLit, rewriteOne, Instructions.push]
    | Neg a =>
        simp only [pureLit] at hp
        simp [optimizeGo, substVal_lit _ _ hp, ih2, foldLit, rewriteOne,
          Instructions.push]
    | Inc a =>
        simp only [pureLit] at hp
        simp [optimizeGo, substVal_lit _ _ hp, ih2, foldLit, rewriteOne,
          Instructions.push]
    | Dec a =>
        simp only [pureLit] at hp
        simp [optimizeGo, substVal_lit _ _ hp, ih2, foldLit, rewriteOne,
          Instructions.push]
    | Copy a =>
        simp only [pureLit] at hp
        rcases isLit_shapes a hp with ⟨n, rfl⟩ | ⟨b2, rfl⟩ | ⟨c2, rfl⟩ <;>
          simp [optimizeGo, substVal_lit _ _ hp, recordCopy, ih2, foldLit,
            rewriteOne, Instructions.push]
    | TernaryIf c t e =>
        simp only [pureLit, Bool.and_eq_true] at hp
        obtain ⟨⟨hc, ht⟩, he⟩ := hp
        simp [optimizeGo, substOperand_lit _ _ hc, substOperand_lit _ _ ht,
          substOperand_lit _ _ he, ih2, foldLit, rewriteOne,
          Instructions.push]
    | Deref a => simp [pureLit] at hp
    | DerefRef a => simp [pureLit] at hp
    | DerefAssign a b => simp [pureLit] at hp
    | DerefAssignRef a b => simp [pureLit] at hp
    | If c m e => simp [pureLit] at hp
    | Else m => simp [pureLit] at hp
    | EndIf m e => simp [pureLit] at hp
    | While c => simp [pureLit] at hp
    | EndWhile c => simp [pureLit] at hp
    | Print a => simp [pureLit] at hp
    | Ascii a => simp [pureLit] at hp
    | Input => simp [pureLit] at hp
    | Call f args => simp [pureLit] at hp

theorem rewriteOne_eval (i i2 : Instruction) (v : Val)
    (h : rewriteOne i = some i2) (he : evalInstr i = some v) :
    evalInstr i2 = some v := by
  cases i <;> simp only [rewriteOne] at h <;>
    first
    | (cases h; exact he)
    | skip
  case Add a b =>
    split at h
    · exact absurd h (by simp)
    · cases h; exact he
  case Sub a b =>
    split at h
    · exact absurd h (by simp)
    · cases h; exact he
  case Div a b =>
    split at h
    · exact absurd h (by simp)
    · cases h; exact he
  case Mul a b =>
    split at h
    · exact absurd h (by simp)
    · split at h
      · exact absurd h (by simp)
      · split at h
        · -- squaring: `x * x` becomes `Pow(x, 2)`
          rename_i hb1 hb0 hlr
          subst hlr
          cases h
          cases a <;> simp only [evalInstr] at he ⊢ <;> try exact he
          · rename_i n
            rw [← he]
            have h2 : Int.toNat 2 = 2 := rfl
            rw [h2, pow_two]
            norm_num
        · split at h
          · -- negation: `x * -1` becomes `Neg(x)`
            rename_i hb1 hb0 hlr hm1
            subst hm1
            cases h
            cases a <;> simp only [evalInstr] at he ⊢ <;> try exact he
            · rename_i n
              rw [← he]
              norm_num
          · cases h; exact he

theorem exec_isSome (code : Instructions)
    (h : ∀ x ∈ code, (evalInstr x.2).isSome = true) :
    ∀ m, ∃ m2, exec code m = some m2 := by
  induction code with
  | nil => intro m; exact ⟨m, rfl⟩
  | cons hd tl ih =>
    intro m
    obtain ⟨assign, i⟩ := hd
    obtain ⟨v, hv⟩ := Option.isSome_iff_exists.mp (h _ (List.mem_cons_self _ _))
    obtain ⟨m2, hm2⟩ := ih (fun x hx => h x (List.mem_cons_of_mem _ hx))
      (writeDest m assign v)
    exact ⟨m2, by simp [exec, hv, hm2]⟩

theorem exec_preserve (code : Instructions) (off : Nat)
    (hoff : off ∉ destsOf code) :
    ∀ m m2, exec code m = some m2 → m2 off = m off := by
  induction code with
  | nil => intro m m2 h; cases h; rfl
  | cons hd tl ih =>
    intro m m2 h
    obtain ⟨⟨dest, snap⟩, i⟩ := hd
    simp only [exec] at h
    cases hv : evalInstr i with
    | none => rw [hv] at h; cases h
    | some v =>
        rw [hv] at h
        cases dest with
        | none =>
            have h1 : off ∉ destsOf tl := by
              simpa [destsOf, destOf, List.filterMap_cons] using hoff
            rw [ih h1 _ _ h]
            rfl
        | some p =>
            obtain ⟨o, sz⟩ := p
            have hne : ¬(off = o ∨ off ∈ destsOf tl) := by
              simpa [destsOf, destOf, List.filterMap_cons] using hoff
            push_neg at hne
            rw [ih hne.2 _ _ h]
            simp [writeDest, hne.1]

theorem destsOf_cons_some (o sz snap : Nat) (i : Instruction)
    (tl : Instructions) :
    destsOf (((some (o, sz), snap), i) :: tl) = o :: destsOf tl := rfl

theorem destsOf_cons_none (snap : Nat) (i : Instruction) (tl : Instructions) :
    destsOf (((Option.none, snap), i) :: tl) = destsOf tl := rfl

theorem foldLit_cons_none (a : Assign) (i : Instruction) (tl : Instructions)
    (hr : rewriteOne i = Option.none) :
    foldLit ((a, i) :: tl) = foldLit tl := by
  simp [foldLit, List.filterMap_cons, hr]

theorem foldLit_cons_some (a : Assign) (i i2 : Instruction)
    (tl : Instructions) (hr : rewriteOne i = some i2) :
    foldLit ((a, i) :: tl) = (a, i2) :: foldLit tl := by
  simp [foldLit, List.filterMap_cons, hr]

theorem destsOf_foldLit_subset (code : Instructions) (off : Nat)
    (h : off ∈ destsOf (foldLit code)) : off ∈ destsOf code := by
  induction code with
  | nil => simp [foldLit, destsOf] at h
  | cons hd tl ih =>
    obtain ⟨⟨dest, snap⟩, i⟩ := hd
    cases hr : rewriteOne i with
    | none =>
        rw [foldLit_cons_none _ _ _ hr] at h
        cases dest with
        | none => rw [destsOf_cons_none]; exact ih h
        | some p =>
            obtain ⟨o, sz⟩ := p
            rw [destsOf_cons_some]
            exact List.mem_cons_of_mem _ (ih h)
    | some i2 =>
        rw [foldLit_cons_some _ _ _ _ hr] at h
        cases dest with
        | none =>
            rw [destsOf_cons_none] at h ⊢
            exact ih h
        | some p =>
            obtain ⟨o, sz⟩ := p
            rw [destsOf_cons_some] at h ⊢
            rcases List.mem_cons.mp h with h2 | h2
            · exact List.mem_cons.mpr (Or.inl h2)
            · exact List.mem_cons.mpr (Or.inr (ih h2))

theorem mem_foldLit (code : Instructions) (x : Assign × Instruction)
    (h : x ∈ foldLit code) :
    ∃ y ∈ code, y.1 = x.1 ∧ rewriteOne y.2 = some x.2 := by
  obtain ⟨y, hy, hfy⟩ := List.mem_filterMap.mp h
  refine ⟨y, hy, ?_⟩
  cases hr : rewriteOne y.2 with
  | none => rw [hr] at hfy; cases hfy
  | some i2 =>
      rw [hr] at hfy
      simp at hfy
      cases hfy
      exact ⟨rfl, rfl⟩

theorem exec_foldLit_agree (code : Instructions)
    (heval : ∀ x ∈ code, (evalInstr x.2).isSome = true)
    (hnodup : (destsOf code).Nodup) :
    ∀ m mo m1 m2, (∀ off ∈ destsOf (foldLit code), m off = mo off) →
      exec code m = some m1 → exec (foldLit code) mo = some m2 →
      ∀ off ∈ destsOf (foldLit code), m1 off = m2 off := by
  induction code with
  | nil =>
      intro m mo m1 m2 hm h1 h2 off hoff
      simp [foldLit, destsOf] at hoff
  | cons hd tl ih =>
    intro m mo m1 m2 hm h1 h2 off hoff
    obtain ⟨⟨dest, snap⟩, i⟩ := hd
    obtain ⟨v, hv⟩ :=
      Option.isSome_iff_exists.mp (heval _ (List.mem_cons_self _ _))
    have hevtl : ∀ x ∈ tl, (evalInstr x.2).isSome = true :=
      fun x hx => heval x (List.mem_cons_of_mem _ hx)
    simp only [exec, hv] at h1
    cases hr : rewriteOne i with
    | none =>
        rw [foldLit_cons_none _ _ _ hr] at h2 hoff hm
        cases dest with
        | none =>
            have hnod2 : (destsOf tl).Nodup := by
              rw [destsOf_cons_none] at hnodup; exact hnodup
            exact ih hevtl hnod2 _ _ _ _ hm h1 h2 off hoff
        | some p =>
            obtain ⟨o, sz⟩ := p
            rw [destsOf_cons_some] at hnodup
            have ho_nin : o ∉ destsOf tl := (List.nodup_cons.mp hnodup).1
            have hnod2 := (List.nodup_cons.mp hnodup).2
            refine ih hevtl hnod2 _ _ _ _ ?_ h1 h2 off hoff
            intro o2 ho2
            have hne : o2 ≠ o :=
              fun he => ho_nin (he ▸ destsOf_foldLit_subset tl o2 ho2)
            have := hm o2 ho2
            simpa [writeDest, hne] using this
    | some i2 =>
        rw [foldLit_cons_some _ _ _ _ hr] at h2 hoff hm
        have hv2 : evalInstr i2 = some v := rewriteOne_eval i i2 v hr hv
        simp only [exec, hv2] at h2
        cases dest with
        | none =>
            have hnod2 : (destsOf tl).Nodup := by
              rw [destsOf_cons_none] at hnodup; exact hnodup
            rw [destsOf_cons_none] at hoff hm
            exact ih hevtl hnod2 _ _ _ _ hm h1 h2 off hoff
        | some p =>
            obtain ⟨o, sz⟩ := p
            rw [destsOf_cons_some] at hnodup hoff hm
            have ho_nin : o ∉ destsOf tl := (List.nodup_cons.mp hnodup).1
            have hnod2 := (List.nodup_cons.mp hnodup).2
            have hpo : o ∉ destsOf (foldLit tl) :=
              fun hc => ho_nin (destsOf_foldLit_subset tl o hc)
            rcases List.mem_cons.mp hoff with rfl | hoff2
            · rw [exec_preserve tl off ho_nin _ _ h1,
                exec_preserve (foldLit tl) off hpo _ _ h2]
              simp [writeDest]
            · refine ih hevtl hnod2 _ _ _ _ ?_ h1 h2 off hoff2
              intro o2 ho2
              by_cases ho2o : o2 = o
              · subst ho2o; simp [writeDest]
              · have := hm o2 (List.mem_cons.mpr (Or.inr ho2))
                simpa [writeDest, ho2o] using this

/-- Claim C1 (counterexample).  The claim states that for every instruction
sequence whose operands are all literal constants, the original and the
optimized sequence yield identical final memory states at every destination
offset written by the original.  It is false: the identity elimination
`x + 0` deletes the instruction entirely (recording its value in the constant
map) instead of emitting a store, so the destination slot of
`Add(Num(2), Num(0))` at offset 0 holds `Num(2)` after the original run and
stays unwritten after the optimized run. -/
theorem optimize_not_memory_identical_on_literals :
    optimize [((some (0, 1), 1), .Add (.Num 2) (.Num 0))] = some [] ∧
    exec [((some (0, 1), 1), .Add (.Num 2) (.Num 0))] mem0 =
      some (writeDest mem0 (some (0, 1), 1) (.Num 2)) ∧
    writeDest mem0 (some (0, 1), 1) (.Num 2) 0 = some (.Num 2) ∧
    exec ([] : Instructions) mem0 = some mem0 ∧
    mem0 0 = Option.none :=
  ⟨rfl, rfl, rfl, rfl, rfl⟩

/-- Claim C1 (amended).  For every sequence of value-producing instructions
whose operands are all literal constants, each with a destination, with
pairwise-distinct destination offsets and defined literal evaluation, the
optimizer output is exactly the `foldLit` image of the sequence, and running
the original and the optimized sequence from an empty memory yields the same
value at every destination offset written by the optimized sequence.
Offsets belonging to instructions deleted by identity elimination or
annihilation may remain unwritten in the optimized run (their folded value is
tracked in the optimizer's constant map instead). -/
theorem optimize_preserves_literal_semantics (code : Instructions)
    (hpure : ∀ x ∈ code, pureLit x.2 = true ∧ x.1.1.isSome = true)
    (heval : ∀ x ∈ code, (evalInstr x.2).isSome = true)
    (hnodup : (destsOf code).Nodup) :
    ∃ m1 m2, optimize code = some (foldLit code) ∧
      exec code mem0 = some m1 ∧ exec (foldLit code) mem0 = some m2 ∧
      ∀ off ∈ destsOf (foldLit code), m1 off = m2 off := by
  obtain ⟨m1, hm1⟩ := exec_isSome code heval mem0
  have hev2 : ∀ x ∈ foldLit code, (evalInstr x.2).isSome = true := by
    intro x hx
    obtain ⟨y, hy, _, hr⟩ := mem_foldLit code x hx
    obtain ⟨v, hv⟩ := Option.isSome_iff_exists.mp (heval y hy)
    rw [rewriteOne_eval y.2 x.2 v hr hv]
    rfl
  obtain ⟨m2, hm2⟩ := exec_isSome (foldLit code) hev2 mem0
  refine ⟨m1, m2, ?_, hm1, hm2, ?_⟩
  · have := optimizeGo_lit code hpure [] []
    simpa [optimize] using this
  · exact exec_foldLit_agree code heval hnodup mem0 mem0 m1 m2
      (fun _ _ => rfl) hm1 hm2

/-- Concrete witness sequence for the amended claim C1. -/
def c1wit : Instructions :=
  [((some (0, 1), 1), .Mul (.Num 3) (.Num 3)),
   ((some (1, 1), 2), .Add (.Num 1) (.Num 0)),
   ((some (2, 1), 3), .Copy (.Num 7))]

/-- Claim C1 (witness): the amended preservation theorem applied to a
concrete three-instruction literal sequence. -/
theorem optimize_preserves_literal_semantics_witness :
    ∃ m1 m2, optimize c1wit = some (foldLit c1wit) ∧
      exec c1wit mem0 = some m1 ∧ exec (foldLit c1wit) mem0 = some m2 ∧
      ∀ off ∈ destsOf (foldLit c1wit), m1 off = m2 off :=
  optimize_preserves_literal_semantics c1wit (by decide) (by decide)
    (by decide)

/-- Claim C2 (counterexample).  The claim states that a `Mul` whose right
operand is the literal 0 is rewritten to `Copy(Num(0))` at the same
destination slot in the optimizer output.  In fact the instruction is deleted
outright: the output for the single instruction `Mul(Num(5), Num(0))` at
destination `(0, 1)` is empty — no `Copy` is emitted at that destination. -/
theorem mul_zero_not_copy_at_same_destination :
    optimize [((some (0, 1), 1), .Mul (.Num 5) (.Num 0))] = some [] ∧
    some ([] : Instructions) ≠
      some [((some (0, 1), 1), Instruction.Copy (.Num 0))] :=
  ⟨rfl, by simp⟩

/-- Claim C2 (amended).  A `Mul` by literal 0 is deleted from the output and
the literal 0 is recorded as the known value of its destination slot; the
propagation then rewrites later reads of that slot, so for the two-instruction
sequence produced by `int x = 5 * 0;` — `Mul(Num(5), Num(0))` into the
temporary at offset 0 followed by `Copy(Index(0))` into x's slot at offset 1 —
the optimizer output is the single instruction `Copy(Num(0))` at x's
destination `(1, 1)`. -/
theorem mul_zero_folds_and_propagates :
    optimize [((some (0, 1), 1), .Mul (.Num 5) (.Num 0)),
        ((some (1, 1), 2), .Copy (.Index 0 .Number))] =
      some [((some (1, 1), 2), .Copy (.Num 0))] := rfl

/-! ## AST and code generator, translated from `src/core/ir_code.rs`,
`src/utils/node.rs` and `src/utils/error.rs` -/

/-- Parse-level types (`enum Type` of `src/utils/node.rs`); the `Struct`
variant is omitted (its only consumers in the code generator are `todo!()`
panics and `generate_code`'s struct collection, outside the claims). -/
inductive PType where
  | Number
  | Boolean
  | None
  | Char
  | Ref (t : PType)
  | Pointer (t : PType)
deriving DecidableEq

/-- Modelled from the spec: `ValType::from_parse_type` (missing `utils` value
module) carries the parser's type grammar onto value types constructor-wise
(the spec presents a single type grammar for both). -/
def ValType.from_parse_type : PType → ValType
  | .Number => .Number
  | .Boolean => .Boolean
  | .None => .None
  | .Char => .Char
  | .Ref t => .Ref (ValType.from_parse_type t)
  | .Pointer t => .Pointer (ValType.from_parse_type t)

/-- AST nodes (`enum Node` of `src/utils/node.rs`); `Token` payloads are kept
as their `TokenType` (position is metadata) and `Position` fields are
dropped. -/
inductive Node where
  | Pointer (e : Node)
  | Converted (e : Node) (t : PType)
  | AttrAccess (e : Node) (attr : TokenType) (t : PType)
  | StructConstructor (name : TokenType) (fields : List (TokenType × Node))
  | String (tok : TokenType)
  | While (cond : Node) (body : Node)
  | Struct (name : TokenType) (fields : List (TokenType × PType))
  | Number (tok : TokenType)
  | Boolean (tok : TokenType)
  | BinaryOp (op : TokenType) (l r : Node) (t : PType)
  | UnaryOp (op : TokenType) (e : Node) (t : PType)
  | VarAssign (var : TokenType) (e : Node) (t : PType)
  | StaticVar (var : TokenType) (e : Node)
  | VarAccess (var : TokenType) (t : PType)
  | VarReassign (var : TokenType) (e : Node)
  | Statements (stmts : List Node) (t : PType)
  | Call (f : TokenType) (args : List Node) (t : PType)
  | FuncDef (f : TokenType) (params : List (TokenType × PType)) (body : Node)
      (ret : PType)
  | Return (e : Node)
  | Print (es : List Node)
  | Ascii (es : List Node)
  | Input
  | Ref (e : Node) (t : PType)
  | Deref (e : Node) (t : PType)
  | Ternary (cond thenN elseN : Node) (t : PType)
  | If (cond thenN : Node) (elseN : Option Node)
  | None
  | Char (tok : TokenType)
  | Array (es : List Node) (t : PType)
  | Index (arr : TokenType) (idx : Node) (t : PType)
  | IndexAssign (arr : TokenType) (idx e : Node)
  | DerefAssign (de e : Node)
  | For (init cond step body : Node)
  | Expanded (stmts : List Node) (t : PType)

/-- Error kinds, translated from `src/utils/error.rs` (`enum ErrorType`). -/
inductive ErrorType where
  | InvalidLiteral
  | NumberTooLarge
  | SyntaxError
  | UndefinedFunction
  | UndefinedStruct
  | UndefinedVariable
  | InvalidReturn
  | TypeError
  | IndexOutOfBounds
  | FileNotFound
  | Redefinition
  | RecursionError
  | PreprocessorError
deriving DecidableEq

/-- Outcome kinds of a code-generation step: an `Error` value (its kind; the
position and message strings are diagnostic metadata, dropped) or a Rust
panic (`unreachable!()`, `todo!()`, a failed `unwrap`, or fuel exhaustion of
the embedding). -/
inductive GenErr where
  | err (t : ErrorType)
  | panic
deriving DecidableEq

/-- The token-type lists `BOOLEAN_OPERATORS` of `src/utils/token.rs`. -/
def BOOLEAN_OPERATORS : List TokenType :=
  [.Neq, .Gt, .Le, .Lt, .Ge, .Eq]

/-- The token-type list `BOOLEAN_EXCLUSIVE` of `src/utils/token.rs`. -/
def BOOLEAN_EXCLUSIVE : List TokenType :=
  [.LAnd, .LOr, .LNot, .LXor]

/-- Result type of a binary operation, translated from
`Type::get_result_type` in `src/utils/node.rs` (the `ValType` copy lives in
the missing `utils` value module; the spec and the in-repo parse-type version
fix its content).  The struct arm is subsumed by the catch-all `None`. -/
def ValType.get_result_type (self rhs : ValType) (op : TokenType) :
    Option ValType :=
  match self, rhs with
  | .Number, .Number =>
      if BOOLEAN_OPERATORS.contains op then some .Boolean
      else if BOOLEAN_EXCLUSIVE.contains op then Option.none
      else some .Number
  | .Pointer t, .Number =>
      if op = .Add ∨ op = .Sub then some (.Pointer t) else Option.none
  | .Boolean, .Boolean =>
      if BOOLEAN_OPERATORS.contains op ∨ BOOLEAN_EXCLUSIVE.contains op then
        some .Boolean
      else Option.none
  | .Char, .Char =>
      if BOOLEAN_OPERATORS.contains op then some .Boolean else Option.none
  | _, _ => Option.none

/-- Result type of a unary operation, translated from
`Type::get_result_type_unary` in `src/utils/node.rs`. -/
def ValType.get_result_type_unary (self : ValType) (op : TokenType) :
    Option ValType :=
  match self with
  | .Number =>
      if op = .LNot then Option.none
      else if op = .Inc ∨ op = .Dec then some .None
      else some .Number
  | .Boolean => if op = .LNot then some .Boolean else Option.none
  | .Pointer _ =>
      if op = .Inc ∨ op = .Dec then some .None else Option.none
  | _ => Option.none

/-- Legal `as` conversions, translated from `Type::can_be_converted` in
`src/utils/node.rs` (carried onto value types by the identification of the
two type grammars): the three scalar types interconvert, and a reference
converts to a pointer of the same pointee. -/
def ValType.can_be_converted (self other : ValType) : Bool :=
  match self, other with
  | .Number, .Number => true
  | .Number, .Boolean => true
  | .Number, .Char => true
  | .Boolean, .Number => true
  | .Boolean, .Boolean => true
  | .Boolean, .Char => true
  | .Char, .Number => true
  | .Char, .Boolean => true
  | .Char, .Char => true
  | .Ref t1, .Pointer t2 => decide (t1 = t2)
  | _, _ => false

/-- Modelled from the spec: `Instruction::from_token_binary` (missing `utils`
module) selects the instruction constructor named by the operator token.
`Ge`/`Gt` are intercepted before this call in `make_instruction`. -/
def Instruction.from_token_binary (op : TokenType) :
    Option (Val → Val → Instruction) :=
  match op with
  | .Add => some .Add
  | .Sub => some .Sub
  | .Mul => some .Mul
  | .Div => some .Div
  | .Mod => some .Mod
  | .Pow => some .Pow
  | .Shl => some .Shl
  | .Shr => some .Shr
  | .BAnd => some .BAnd
  | .BOr => some .BOr
  | .BXor => some .BXor
  | .LAnd => some .LAnd
  | .LOr => some .LOr
  | .LXor => some .LXor
  | .Eq => some .Eq
  | .Neq => some .Neq
  | .Lt => some .Lt
  | .Le => some .Le
  | _ => Option.none

/-- Modelled from the spec: `Instruction::from_token_unary` (missing `utils`
module); prefix minus is the `Sub` token. -/
def Instruction.from_token_unary (op : TokenType) :
    Option (Val → Instruction) :=
  match op with
  | .Sub => some .Neg
  | .BNot => some .BNot
  | .LNot => some .LNot
  | .Inc => some .Inc
  | .Dec => some .Dec
  | _ => Option.none

/-- The memory plan (`Memory` of the missing `utils` module), modelled from
the spec: a monotonically growing byte cursor. -/
structure Memory where
  last_memory_index : Nat
deriving DecidableEq

/-- Modelled from the spec: `allocate(n)` returns the current cursor and
advances it by `n`. -/
def Memory.allocate (m : Memory) (n : Nat) : Nat × Memory :=
  (m.last_memory_index, ⟨m.last_memory_index + n⟩)

/-- Association-list lookup with first-match semantics (HashMap `get`). -/
def assocGet (l : List (String × Val)) (k : String) : Option Val :=
  match l with
  | [] => Option.none
  | (k1, v) :: rest => if k1 = k then some v else assocGet rest k

/-- Association-list insert with replace semantics (HashMap `insert`). -/
def assocInsert (l : List (String × Val)) (k : String) (v : Val) :
    List (String × Val) :=
  match l with
  | [] => [(k, v)]
  | (k1, v1) :: rest =>
      if k1 = k then (k1, v) :: rest else (k1, v1) :: assocInsert rest k v

/-- The lexical environment (`Variables` of the missing `utils` module),
modelled from the spec: a map from identifier to `Value` with a parent
pointer (`super_vars`) forming a scope chain. -/
inductive Variables where
  | scope (vars : List (String × Val)) (super_vars : Option Variables)

/-- Insert into the innermost environment (spec: "inserts go to the innermost
environment"). -/
def Variables.insert : Variables → String → Val → Variables
  | .scope vs sup, k, v => .scope (assocInsert vs k v) sup

/-- Lookup walking the parent chain (spec: "lookups walk parents"). -/
def Variables.get : Variables → String → Option Val
  | .scope vs sup, k =>
      match assocGet vs k with
      | some v => some v
      | Option.none =>
          match sup with
          | some p => Variables.get p k
          | Option.none => Option.none

/-- A child environment whose parent is the given one
(`Variables::new_from_parent`). -/
def Variables.new_from_parent (p : Variables) : Variables :=
  .scope [] (some p)

/-- The generator state carried by `&mut self` in
`CodeGenerator::make_instruction` (`src/core/ir_code.rs` lines 9-14). -/
structure CodeGenerator where
  instructions : Instructions
  ret : List (Nat × Nat)
  statics : List (String × Val)
  structs : List ValType

/-- Append an instruction to the generator's stream
(`self.instructions.push`). -/
def CodeGenerator.push (g : CodeGenerator) (i : Instruction) (a : Assign) :
    CodeGenerator :=
  { g with instructions := g.instructions.push i a }

/-- Result of one `make_instruction` step: the produced value together with
the updated generator, environment and memory, or a failure. -/
abbrev GenResult := Except GenErr (Val × CodeGenerator × Variables × Memory)

/-- Compile-time/runtime `as` conversion, translated from the
`Node::Converted` arm of `CodeGenerator::make_instruction`
(`src/core/ir_code.rs` lines 771-797).  The `as i16`/`as u8`/`as i8` casts
are exact on the carried ranges and modelled by unsigned and signed 8-bit
wrapping; `none` models the `unreachable!()` panics (`Pointer` and `None`
sources, non-scalar targets of scalar sources). -/
def convertVal (val : Val) (t : ValType) : Option Val :=
  match val with
  | .Num n =>
      match t with
      | .Boolean => some (.Bool (decide (n ≠ 0)))
      | .Char => some (.Char ((n + 128).emod 256))
      | .Number => some val
      | _ => Option.none
  | .Bool b =>
      match t with
      | .Boolean => some val
      | .Char => some (.Char (if b then 1 else 0))
      | .Number => some (.Num (if b then 1 else 0))
      | _ => Option.none
  | .Char c =>
      match t with
      | .Boolean => some (.Bool (decide (c ≠ 0)))
      | .Char => some val
      | .Number => some (.Num (i8wrap (c - 128)))
      | _ => Option.none
  | .Ref n t2 => some (.Pointer n t2)
  | .Index n _ => some (.Index n t)
  | _ => Option.none

/-- Sequential evaluation of a statement list threading generator,
environment and memory (the `for statement in statements` loops of
`Node::Statements` and `Node::Expanded`). -/
def run_seq (step : Node → CodeGenerator → Variables → Memory → GenResult) :
    List Node → CodeGenerator → Variables → Memory →
    Except GenErr (CodeGenerator × Variables × Memory)
  | [], g, v, m => .ok (g, v, m)
  | n :: rest, g, v, m => do
      let (_, g2, v2, m2) ← step n g v m
      run_seq step rest g2 v2 m2

/-- The `Node::Print` loop (`src/core/ir_code.rs` lines 294-306): each
argument of `Char` type is emitted as `Ascii`, every other as `Print`. -/
def run_print (step : Node → CodeGenerator → Variables → Memory → GenResult) :
    List Node → CodeGenerator → Variables → Memory →
    Except GenErr (CodeGenerator × Variables × Memory)
  | [], g, v, m => .ok (g, v, m)
  | e :: rest, g, v, m => do
      let (val, g2, v2, m2) ← step e g v m
      let g3 :=
        if val.typeOf = ValType.Char then
          g2.push (.Ascii val) (Option.none, m2.last_memory_index)
        else
          g2.push (.Print val) (Option.none, m2.last_memory_index)
      run_print step rest g3 v2 m2

/-- The `Node::Ascii` loop (`src/core/ir_code.rs` lines 308-315). -/
def run_ascii (step : Node → CodeGenerator → Variables → Memory → GenResult) :
    List Node → CodeGenerator → Variables → Memory →
    Except GenErr (CodeGenerator × Variables × Memory)
  | [], g, v, m => .ok (g, v, m)
  | e :: rest, g, v, m => do
      let (val, g2, v2, m2) ← step e g v m
      run_ascii step rest
        (g2.push (.Ascii val) (Option.none, m2.last_memory_index)) v2 m2

/-- The `Node::Array` element loop (`src/core/ir_code.rs` lines 487-501):
one `Copy` per element into successive slots. -/
def run_array (step : Node → CodeGenerator → Variables → Memory → GenResult)
    (size : Nat) :
    List Node → Nat → CodeGenerator → Variables → Memory →
    Except GenErr (CodeGenerator × Variables × Memory)
  | [], _, g, v, m => .ok (g, v, m)
  | e :: rest, current, g, v, m => do
      let (val, g2, v2, m2) ← step e g v m
      run_array step size rest (current + size)
        (g2.push (.Copy val) (some (current, size), m2.last_memory_index)) v2
        m2

/-- The `Node::String` character loop (`src/core/ir_code.rs` lines 749-769):
one `Copy` per character plus a terminating zero, each recorded with
`POINTER_SIZE` as its size, at a fixed cursor snapshot. -/
def run_string (snapshot : Nat) :
    List Char → Nat → CodeGenerator → CodeGenerator
  | [], current, g =>
      g.push (.Copy (.Char 0)) (some (current, POINTER_SIZE), snapshot)
  | c :: rest, current, g =>
      run_string snapshot rest (current + 1)
        (g.push (.Copy (.Char ((c.toNat : Int) % 256)))
          (some (current, POINTER_SIZE), snapshot))

/-- `CodeGenerator::make_instruction` (`src/core/ir_code.rs` lines 17-831),
translated arm by arm.  The extra fuel argument only forces termination of
the embedding; every theorem quantifies over or supplies sufficient fuel.
`.error .panic` marks the source's `unreachable!()`/`todo!()`/failed-`unwrap`
paths (and fuel exhaustion); `.error (.err e)` is a returned `Error` value. -/
def make_instruction : Nat → Node → CodeGenerator → Variables → Memory →
    GenResult
  | 0, _, _, _, _ => .error .panic
  | fuel + 1, node, g0, vars0, memory0 =>
    match node with
    | .Number num =>
        match num with
        | .Number num1 => .ok (.Num (i8wrap num1), g0, vars0, memory0)
        | _ => .error .panic
    | .Boolean b =>
        match b with
        | .Keyword s =>
            if s = "true" then .ok (.Bool true, g0, vars0, memory0)
            else if s = "false" then .ok (.Bool false, g0, vars0, memory0)
            else .error .panic
        | _ => .error .panic
    | .BinaryOp op left right _ => do
        let (l, g, vars, memory) ← make_instruction fuel left g0 vars0 memory0
        let (r, g, vars, memory) ← make_instruction fuel right g vars memory
        let left_type := l.typeOf
        let right_type := r.typeOf
        match left_type.get_result_type right_type op with
        | Option.none => .error (.err .TypeError)
        | some t =>
            let size := t.get_size
            let (mem, memory) := memory.allocate size
            -- the three-way `match op.token_type` on `Ge`, `Gt` and the
            -- catch-all is rendered as an equality cascade
            if op = .Ge then
              let g := g.push (.Lt l r)
                (some (mem, size), memory.last_memory_index)
              let (new_mem, memory) := memory.allocate size
              let g := g.push (.LNot (.Index mem .Boolean))
                (some (new_mem, size), memory.last_memory_index)
              .ok (.Index new_mem t, g, vars, memory)
            else if op = .Gt then
              let g := g.push (.Le l r)
                (some (mem, size), memory.last_memory_index)
              let (new_mem, memory) := memory.allocate size
              let g := g.push (.LNot (.Index mem .Boolean))
                (some (new_mem, size), memory.last_memory_index)
              .ok (.Index new_mem t, g, vars, memory)
            else
              match Instruction.from_token_binary op with
              | some f =>
                  .ok (.Index mem t,
                    g.push (f l r) (some (mem, size),
                      memory.last_memory_index), vars, memory)
              | Option.none => .error .panic
    | .UnaryOp op expr1 _ => do
        let (exprV, g, vars, memory) ←
          make_instruction fuel expr1 g0 vars0 memory0
        let expr_type := exprV.typeOf
        match expr_type.get_result_type_unary op with
        | Option.none => .error (.err .TypeError)
        | some t =>
            let size := t.get_size
            let (mem, memory) := memory.allocate size
            match Instruction.from_token_unary op with
            | some f =>
                .ok (.Index mem t,
                  g.push (f exprV) (some (mem, size),
                    memory.last_memory_index), vars, memory)
            | Option.none => .error .panic
    | .VarAssign var1 expr _ =>
        match var1 with
        | .Identifier var => do
            let (val, g, vars, memory) ←
              make_instruction fuel expr g0 vars0 memory0
            match val with
            | .Index index (ValType.Ref t) =>
                .ok (.None, g,
                  vars.insert var (.Index index (ValType.Ref t)), memory)
            | .Index index type_ =>
                let size := type_.get_size
                let (mem, memory) := memory.allocate size
                let g := g.push (.Copy (.Index index type_))
                  (some (mem, size), memory.last_memory_index)
                .ok (.None, g, vars.insert var (.Index mem type_), memory)
            | .Ref index type_ =>
                .ok (.None, g,
                  vars.insert var (.Index index (ValType.Ref type_)), memory)
            | val =>
                let v := val.typeOf
                let size := val.get_size
                let (mem, memory) := memory.allocate v.get_size
                let g := g.push (.Copy val)
                  (some (mem, size), memory.last_memory_index)
                .ok (.None, g, vars.insert var (.Index mem v), memory)
        | _ => .error .panic
    | .VarAccess var1 _ =>
        match var1 with
        | .Identifier var =>
            match vars0.get var with
            | some v => .ok (v, g0, vars0, memory0)
            | Option.none => .error .panic
        | _ => .error .panic
    | .VarReassign var1 expr =>
        match var1 with
        | .Identifier var2 => do
            let (val, g, vars, memory) ←
              make_instruction fuel expr g0 vars0 memory0
            match val with
            | .Index index (ValType.Ref t) =>
                match vars.get var2 with
                | Option.none => .error .panic
                | some var =>
                    if var.typeOf ≠ ValType.Ref t then .error (.err .TypeError)
                    else
                      let size := (ValType.Ref t).get_size
                      let g := g.push (.Copy (.Index index (ValType.Ref t)))
                        (some (index, size), memory.last_memory_index)
                      .ok (.None, g, vars, memory)
            | .Index index type_ =>
                match vars.get var2 with
                | Option.none => .error .panic
                | some var =>
                    if var.typeOf ≠ type_ then .error (.err .TypeError)
                    else
                      let size := type_.get_size
                      match var with
                      | .Index mem _ =>
                          let g := g.push (.Copy (.Index index type_))
                            (some (mem, size), memory.last_memory_index)
                          .ok (.None, g, vars, memory)
                      | _ => .error .panic
            | .Ref index type_ =>
                match vars.get var2 with
                | Option.none => .error .panic
                | some var =>
                    if (match var.typeOf with
                        | ValType.Ref t => decide (t = type_)
                        | _ => false) = false then
                      .error (.err .TypeError)
                    else
                      let size := type_.get_size
                      let g := g.push (.Copy (.Index index type_))
                        (some (index, size), memory.last_memory_index)
                      .ok (.None, g, vars, memory)
            | val =>
                match vars.get var2 with
                | Option.none => .error .panic
                | some var =>
                    let size := val.get_size
                    let val_type := val.typeOf
                    if var.typeOf ≠ val_type then .error (.err .TypeError)
                    else
                      match var with
                      | .Index mem _ =>
                          let g := g.push (.Copy val)
                            (some (mem, size), memory.last_memory_index)
                          .ok (.None, g, vars, memory)
                      | _ => .error .panic
        | _ => .error .panic
    | .Statements statements _ => do
        let new := memory0
        let new_vars := Variables.new_from_parent vars0
        let (g, new_vars2, _) ←
          run_seq (make_instruction fuel) statements g0 new_vars new
        match new_vars2 with
        | .scope _ (some sup) => .ok (.None, g, sup, memory0)
        | .scope _ Option.none => .error .panic
    | .Print exprs => do
        let (g, vars, memory) ←
          run_print (make_instruction fuel) exprs g0 vars0 memory0
        .ok (.None, g, vars, memory)
    | .Ascii exprs => do
        let (g, vars, memory) ←
          run_ascii (make_instruction fuel) exprs g0 vars0 memory0
        .ok (.None, g, vars, memory)
    | .Input =>
        let t := ValType.Number
        let size := t.get_size
        let (mem, memory) := memory0.allocate size
        .ok (.Index mem t,
          g0.push .Input (some (mem, size), memory.last_memory_index), vars0,
          memory)
    | .If cond1 then1 else1 => do
        let (cond, g, vars, memory) ←
          make_instruction fuel cond1 g0 vars0 memory0
        if cond.typeOf ≠ ValType.Boolean then .error (.err .TypeError)
        else do
          let (mem, memory) := memory.allocate 2
          let g := g.push (.If cond mem else1.isSome)
            (Option.none, memory.last_memory_index)
          let (then_, g, vars, memory) ←
            make_instruction fuel then1 g vars memory
          if then_.typeOf ≠ ValType.None then .error (.err .TypeError)
          else
            match else1 with
            | some else_ => do
                let g := g.push (.Else mem)
                  (Option.none, memory.last_memory_index)
                let (e, g, vars, memory) ←
                  make_instruction fuel else_ g vars memory
                if e.typeOf ≠ ValType.None then .error (.err .TypeError)
                else
                  .ok (.None,
                    g.push (.EndIf mem true)
                      (Option.none, memory.last_memory_index), vars, memory)
            | Option.none =>
                .ok (.None,
                  g.push (.EndIf mem false)
                    (Option.none, memory.last_memory_index), vars, memory)
    | .Ternary cond1 then1 else_1 _ => do
        let (cond, g, vars, memory) ←
          make_instruction fuel cond1 g0 vars0 memory0
        if cond.typeOf ≠ ValType.Boolean then .error (.err .TypeError)
        else do
          let (then_, g, vars, memory) ←
            make_instruction fuel then1 g vars memory
          let then_type := then_.typeOf
          let (else_, g, vars, memory) ←
            make_instruction fuel else_1 g vars memory
          if then_type ≠ else_.typeOf then .error (.err .TypeError)
          else
            let (mem, memory) := memory.allocate 1
            let g := g.push (.TernaryIf cond then_ else_)
              (some (mem, then_type.get_size), memory.last_memory_index)
            .ok (.Index mem then_type, g, vars, memory)
    | .None => .ok (.None, g0, vars0, memory0)
    | .Index arr1 index1 _ =>
        match arr1 with
        | .Identifier var =>
            match vars0.get var with
            | Option.none => .error .panic
            | some arr => do
                let (index, g, vars, memory) ←
                  make_instruction fuel index1 g0 vars0 memory0
                if index.typeOf ≠ ValType.Number then .error (.err .TypeError)
                else
                  match (match arr with
                    | .Pointer _ t => some t
                    | .Index _ (ValType.Pointer t) => some t
                    | _ => Option.none) with
                  | Option.none => .error (.err .TypeError)
                  | some arr_type =>
                      let t := arr.typeOf
                      let size := arr.get_size
                      let (mem, memory) := memory.allocate (POINTER_SIZE + size)
                      let g := g.push (.Add arr index)
                        (some (mem, POINTER_SIZE), memory.last_memory_index)
                      let g := g.push (.Deref (.Index mem t))
                        (some (mem + POINTER_SIZE, size),
                          memory.last_memory_index)
                      .ok (.Index (mem + POINTER_SIZE) arr_type, g, vars,
                        memory)
        | _ => .error .panic
    | .IndexAssign arr1 index1 assign =>
        match arr1 with
        | .Identifier var =>
            match vars0.get var with
            | Option.none => .error .panic
            | some arr => do
                let (index, g, vars, memory) ←
                  make_instruction fuel index1 g0 vars0 memory0
                if index.typeOf ≠ ValType.Number then .error (.err .TypeError)
                else do
                  let t := arr.typeOf
                  let (mem, memory) := memory.allocate POINTER_SIZE
                  let g := g.push (.Add arr index)
                    (some (mem, POINTER_SIZE), memory.last_memory_index)
                  let (assignV, g, vars, memory) ←
                    make_instruction fuel assign g vars memory
                  .ok (.None,
                    g.push (.DerefAssign (.Index mem t) assignV)
                      (Option.none, memory.last_memory_index), vars, memory)
        | _ => .error .panic
    | .Array elements t => do
        let type_ := ValType.from_parse_type t
        let size := type_.get_size
        let (mem, memory) := memory0.allocate (size * elements.length)
        let (g, vars, memory) ←
          run_array (make_instruction fuel) size elements mem g0 vars0 memory
        .ok (.Pointer mem type_, g, vars, memory)
    | .Return val => do
        let (v, g, vars, memory) ← make_instruction fuel val g0 vars0 memory0
        match g.ret with
        | (mem, size) :: _ =>
            .ok (.None,
              g.push (.Copy v) (some (mem, size), memory.last_memory_index),
              vars, memory)
        | [] => .error .panic
    | .Ref val1 _ => do
        let (val, g, vars, memory) ← make_instruction fuel val1 g0 vars0 memory0
        match val with
        | .Index n t => .ok (.Ref n t, g, vars, memory)
        | .Pointer n t => .ok (.Ref n t, g, vars, memory)
        | .Ref n t => .ok (.Ref n t, g, vars, memory)
        | _ => .error (.err .TypeError)
    | .Deref val1 _ => do
        let (val, g, vars, memory) ← make_instruction fuel val1 g0 vars0 memory0
        match val.typeOf with
        | ValType.Pointer t =>
            let size := t.get_size
            let (mem, memory) := memory.allocate size
            let g := g.push (.Deref val)
              (some (mem, size), memory.last_memory_index)
            .ok (.Index mem t, g, vars, memory)
        | ValType.Ref t =>
            let size := t.get_size
            let (mem, memory) := memory.allocate size
            let g := g.push (.DerefRef val)
              (some (mem, size), memory.last_memory_index)
            .ok (.Index mem t, g, vars, memory)
        | _ => .error (.err .TypeError)
    | .Char c1 =>
        match c1 with
        | .Char c => .ok (.Char c, g0, vars0, memory0)
        | _ => .error .panic
    | .DerefAssign deref assign => do
        let (assignV, g, vars, memory) ←
          make_instruction fuel assign g0 vars0 memory0
        match deref with
        | .Deref val1 _ => do
            let (val, g, vars, memory) ←
              make_instruction fuel val1 g vars memory
            match val.typeOf with
            | ValType.Pointer _ =>
                .ok (.None,
                  g.push (.DerefAssign val assignV)
                    (Option.none, memory.last_memory_index), vars, memory)
            | ValType.Ref _ =>
                .ok (.None,
                  g.push (.DerefAssignRef val assignV)
                    (Option.none, memory.last_memory_index), vars, memory)
            | _ =>
                -- the Rust code only prints the TypeError here (println!)
                -- and continues without emitting anything
                .ok (.None, g, vars, memory)
        | _ => .error .panic
    | .While cond1 body1 => do
        let (cond, g, vars, memory) ←
          make_instruction fuel cond1 g0 vars0 memory0
        if cond.typeOf ≠ ValType.Boolean then .error (.err .TypeError)
        else do
          let (cond, g, memory) :=
            match cond with
            | .Bool b =>
                let size := (Val.Bool b).get_size
                let (mem, memory2) := memory.allocate size
                (Val.Index mem .Boolean,
                  g.push (.Copy (.Bool b))
                    (some (mem, size), memory2.last_memory_index), memory2)
            | c => (c, g, memory)
          let g := g.push (.While cond) (Option.none, memory.last_memory_index)
          let (body, g, vars, memory) ←
            make_instruction fuel body1 g vars memory
          if body.typeOf ≠ ValType.None then .error (.err .TypeError)
          else
            match cond with
            | .Index m t => do
                let (cond2, g, vars, memory) ←
                  make_instruction fuel cond1 g vars memory
                let g :=
                  if cond2 ≠ Val.Index m t then
                    g.push (.Copy cond2)
                      (some (m, t.get_size), memory.last_memory_index)
                  else g
                .ok (.None,
                  g.push (.EndWhile (.Index m t))
                    (Option.none, memory.last_memory_index), vars, memory)
            | c =>
                .ok (.None,
                  g.push (.EndWhile c) (Option.none, memory.last_memory_index),
                  vars, memory)
    | .For init1 cond1 step1 body1 => do
        let (init, g, vars, memory) ←
          make_instruction fuel init1 g0 vars0 memory0
        if init.typeOf ≠ ValType.None then .error (.err .TypeError)
        else do
          let (cond, g, vars, memory) ←
            make_instruction fuel cond1 g vars memory
          if cond.typeOf ≠ ValType.Boolean then .error (.err .TypeError)
          else do
            let (cond, g, memory) :=
              match cond with
              | .Bool b =>
                  let size := (Val.Bool b).get_size
                  let (mem, memory2) := memory.allocate size
                  (Val.Index mem .Boolean,
                    g.push (.Copy (.Bool b))
                      (some (mem, size), memory2.last_memory_index), memory2)
              | c => (c, g, memory)
            let g := g.push (.While cond)
              (Option.none, memory.last_memory_index)
            let (body, g, vars, memory) ←
              make_instruction fuel body1 g vars memory
            if body.typeOf ≠ ValType.None then .error (.err .TypeError)
            else do
              let (step, g, vars, memory) ←
                make_instruction fuel step1 g vars memory
              if step.typeOf ≠ ValType.None then .error (.err .TypeError)
              else
                match cond with
                | .Index m t => do
                    let (cond2, g, vars, memory) ←
                      make_instruction fuel cond1 g vars memory
                    let g :=
                      if cond2 ≠ Val.Index m t then
                        g.push (.Copy cond2)
                          (some (m, t.get_size), memory.last_memory_index)
                      else g
                    .ok (.None,
                      g.push (.EndWhile (.Index m t))
                        (Option.none, memory.last_memory_index), vars, memory)
                | c =>
                    .ok (.None,
                      g.push (.EndWhile c)
                        (Option.none, memory.last_memory_index), vars, memory)
    | .Expanded statements t => do
        let t := ValType.from_parse_type t
        let size := t.get_size
        let (mem, memory) := memory0.allocate size
        let g := { g0 with ret := (mem, size) :: g0.ret }
        let new_vars := vars0
        let new := memory
        let (g, _, _) ← run_seq (make_instruction fuel) statements g new_vars new
        match g.ret with
        | _ :: rest => .ok (.Index mem t, { g with ret := rest }, vars0, memory)
        | [] => .error .panic
    | .String t1 =>
        match t1 with
        | .String s =>
            let (mem, memory) := memory0.allocate (s.length + 1)
            .ok (.Pointer mem ValType.Char,
              run_string memory.last_memory_index s.data mem g0, vars0, memory)
        | _ => .error .panic
    | .Converted n t => do
        let (val, g, vars, memory) ← make_instruction fuel n g0 vars0 memory0
        let t := ValType.from_parse_type t
        match convertVal val t with
        | some v => .ok (v, g, vars, memory)
        | Option.none => .error .panic
    | .StaticVar var1 _ =>
        match var1 with
        | .Identifier ident =>
            match assocGet g0.statics ident with
            | some v => .ok (.None, g0, vars0.insert ident v, memory0)
            | Option.none => .error .panic
        | _ => .error .panic
    | .AttrAccess _ _ _ => .error .panic
    | .Struct _ _ => .error .panic
    | .StructConstructor _ _ => .error .panic
    | .Pointer expr => do
        let (val, g, vars, memory) ← make_instruction fuel expr g0 vars0 memory0
        match val with
        | .Index n t => .ok (.Pointer n t, g, vars, memory)
        | .Pointer n t => .ok (.Pointer n t, g, vars, memory)
        | .Ref n t => .ok (.Pointer n t, g, vars, memory)
        | _ => .error (.err .TypeError)
    | _ => .error .panic

/-- A fresh code generator (no instructions, empty return stack, no statics,
no structs), as built by `generate_code`. -/
def emptyGen : CodeGenerator := ⟨[], [], [], []⟩

/-- Claim C3 (code_bug evidence).  The claim states that when the target of a
dereference-assignment `*x = e` is neither `Pointer` nor `Ref`, code
generation fails with a `TypeError` propagated as an error value.  In
`src/core/ir_code.rs` lines 575-584 the constructed `TypeError` is only
`println!`-ed; the function continues and returns `Ok(Val::None)` without
emitting any instruction.  Here `x` is a plain `int` variable and the whole
step succeeds with the instruction stream unchanged. -/
theorem deref_assign_bad_target_not_an_error :
    make_instruction 3
      (.DerefAssign (.Deref (.VarAccess (.Identifier "x") .Number) .Number)
        (.Number (.Number 1)))
      emptyGen (.scope [("x", .Index 0 .Number)] Option.none) ⟨1⟩ =
      .ok (.None, emptyGen, .scope [("x", .Index 0 .Number)] Option.none,
        ⟨1⟩) := rfl

/-- The environment of the claim C7 evidence: a boolean `b` at offset 0 and
two pointers `p`, `q` at offsets 1 and 3 (pointer size 2). -/
def varsBPQ : Variables :=
  .scope [("b", .Index 0 .Boolean), ("p", .Index 1 (.Pointer .Number)),
    ("q", .Index 3 (.Pointer .Number))] Option.none

/-- Claim C7 (code_bug evidence).  The claimed invariant says every produced
`Value::Index(off, T)` satisfies `off + T.size() ≤ cursor_at_emission`, in
particular for the ternary result slot, whose allocation must cover the
branch type's size.  The ternary arm of `make_instruction`
(`src/core/ir_code.rs` line 404) allocates only 1 byte regardless of the
branch type: with pointer-typed arms (`size P = 2`), the result
`Index(5, Pointer(Number))` has `5 + 2 = 7 > 6`, the cursor snapshot recorded
on the emitted `TernaryIf`. -/
theorem ternary_result_slot_exceeds_cursor :
    (make_instruction 2
      (.Ternary (.VarAccess (.Identifier "b") .Boolean)
        (.VarAccess (.Identifier "p") (.Pointer .Number))
        (.VarAccess (.Identifier "q") (.Pointer .Number)) (.Pointer .Number))
      emptyGen varsBPQ ⟨5⟩ =
      .ok (.Index 5 (ValType.Pointer .Number),
        emptyGen.push
          (.TernaryIf (.Index 0 .Boolean) (.Index 1 (.Pointer .Number))
            (.Index 3 (.Pointer .Number)))
          (some (5, (ValType.Pointer ValType.Number).get_size), 6),
        varsBPQ, ⟨6⟩)) ∧
    5 + (ValType.Pointer ValType.Number).get_size > 6 :=
  ⟨rfl, by decide⟩

/-- Reduction of an `Except` bind on a success value (definitional; stated
for rewriting the code generator's do-blocks). -/
theorem except_bind_ok {ε α β : Type} (x : α) (f : α → Except ε β) :
    ((Except.ok x : Except ε α) >>= f) = f x := rfl

/-- Claim C8.  Compile-time conversion (`as T`) of literal values follows the
spec table exactly: Number n to Boolean is n ≠ 0, Number n to Char is
(n + 128) mod 256, Bool to Char and to Number is 0 or 1, Char c to Boolean
is c ≠ 0, Char c to Number is c − 128, same-type conversion is the identity.
A runtime `Index` is reinterpreted at the new type; a `Ref` under the legal
conversions of `can_be_converted` (which force the target to be the pointer
of its pointee) becomes that `Pointer`; and the `Converted` node emits no
instruction — the generator state after the conversion is exactly the state
after evaluating the inner expression. -/
theorem conversion_follows_spec_table :
    (∀ n : Int, -128 ≤ n → n < 128 →
      convertVal (.Num n) .Boolean = some (.Bool (decide (n ≠ 0))) ∧
      convertVal (.Num n) .Char = some (.Char ((n + 128) % 256)) ∧
      convertVal (.Num n) .Number = some (.Num n)) ∧
    (∀ b : Bool,
      convertVal (.Bool b) .Boolean = some (.Bool b) ∧
      convertVal (.Bool b) .Char = some (.Char (if b then 1 else 0)) ∧
      convertVal (.Bool b) .Number = some (.Num (if b then 1 else 0))) ∧
    (∀ c : Int, 0 ≤ c → c < 256 →
      convertVal (.Char c) .Boolean = some (.Bool (decide (c ≠ 0))) ∧
      convertVal (.Char c) .Char = some (.Char c) ∧
      convertVal (.Char c) .Number = some (.Num (c - 128))) ∧
    (∀ (off : Nat) (τ t : ValType),
      convertVal (.Index off τ) t = some (.Index off t)) ∧
    (∀ (off : Nat) (τ t : ValType),
      ValType.can_be_converted (.Ref τ) t = true →
      convertVal (.Ref off τ) t = some (.Pointer off τ) ∧
        t = .Pointer τ) ∧
    (∀ (fuel : Nat) (e : Node) (t : PType) (g g2 : CodeGenerator)
      (vs vs2 : Variables) (m m2 : Memory) (v v2 : Val),
      make_instruction fuel e g vs m = .ok (v, g2, vs2, m2) →
      convertVal v (ValType.from_parse_type t) = some v2 →
      make_instruction (fuel + 1) (.Converted e t) g vs m =
        .ok (v2, g2, vs2, m2)) := by
  refine ⟨?_, ?_, ?_, ?_, ?_, ?_⟩
  · intro n h1 h2; exact ⟨rfl, rfl, rfl⟩
  · intro b; exact ⟨rfl, rfl, rfl⟩
  · intro c h1 h2
    refine ⟨rfl, rfl, ?_⟩
    simp only [convertVal, i8wrap, Option.some.injEq, Val.Num.injEq]
    have h3 : c - 128 + 128 = c := by ring
    have h4 : Int.emod c 256 = c % 256 := rfl
    rw [h3, h4]
    omega
  · intro off τ t; rfl
  · intro off τ t hc
    cases t <;> simp only [ValType.can_be_converted] at hc <;>
      first
      | cases hc
      | (rename_i t2
         have h2 : τ = t2 := of_decide_eq_true hc
         subst h2
         exact ⟨rfl, rfl⟩)
  · intro fuel e t g g2 vs vs2 m m2 v v2 hm hv
    simp [make_instruction, hm, hv, except_bind_ok]

/-- Claim C8 (witness): the conversion table and the no-instruction clause at
concrete inputs (5 as bool, char 200 as int, 7 as char). -/
theorem conversion_follows_spec_table_witness :
    convertVal (.Num 5) .Boolean = some (.Bool true) ∧
    convertVal (.Char 200) .Number = some (.Num 72) ∧
    make_instruction 2 (.Converted (.Number (.Number 7)) .Char) emptyGen
      (.scope [] Option.none) ⟨0⟩ =
      .ok (.Char 135, emptyGen, .scope [] Option.none, ⟨0⟩) := by
  refine ⟨?_, ?_, ?_⟩
  · have h := (conversion_follows_spec_table.1 5 (by decide) (by decide)).1
    simpa using h
  · have h :=
      (conversion_follows_spec_table.2.2.1 200 (by decide) (by decide)).2.2
    simpa using h
  · exact conversion_follows_spec_table.2.2.2.2.2 1 (.Number (.Number 7))
      .Char emptyGen emptyGen (.scope [] Option.none) (.scope [] Option.none)
      ⟨0⟩ ⟨0⟩ (.Num 7) (.Char 135) rfl rfl

/-- Claim C9.  For a binary operation whose operand evaluations succeed and
whose operand types admit a result type: `>=` emits exactly two
instructions — `Lt(left, right)` into a fresh slot at the old cursor and
`LNot` of that slot into a second fresh slot, which is the expression's
result; `>` analogously emits `Le` then `LNot`; every other operator token
mapped by `from_token_binary` emits a single instruction into one fresh
allocation. -/
theorem ge_gt_desugaring (fuel : Nat) (op : TokenType) (l r : Node)
    (pt : PType) (g0 g1 g2 : CodeGenerator) (vs0 vs1 vs2 : Variables)
    (m0 m1 m2 : Memory) (lv rv : Val) (t : ValType)
    (hl : make_instruction fuel l g0 vs0 m0 = .ok (lv, g1, vs1, m1))
    (hr : make_instruction fuel r g1 vs1 m1 = .ok (rv, g2, vs2, m2))
    (ht : lv.typeOf.get_result_type rv.typeOf op = some t) :
    (op = .Ge →
      make_instruction (fuel + 1) (.BinaryOp op l r pt) g0 vs0 m0 =
        .ok (.Index (m2.last_memory_index + t.get_size) t,
          (g2.push (.Lt lv rv)
            (some (m2.last_memory_index, t.get_size),
              m2.last_memory_index + t.get_size)).push
            (.LNot (.Index m2.last_memory_index .Boolean))
            (some (m2.last_memory_index + t.get_size, t.get_size),
              m2.last_memory_index + t.get_size + t.get_size),
          vs2, ⟨m2.last_memory_index + t.get_size + t.get_size⟩)) ∧
    (op = .Gt →
      make_instruction (fuel + 1) (.BinaryOp op l r pt) g0 vs0 m0 =
        .ok (.Index (m2.last_memory_index + t.get_size) t,
          (g2.push (.Le lv rv)
            (some (m2.last_memory_index, t.get_size),
              m2.last_memory_index + t.get_size)).push
            (.LNot (.Index m2.last_memory_index .Boolean))
            (some (m2.last_memory_index + t.get_size, t.get_size),
              m2.last_memory_index + t.get_size + t.get_size),
          vs2, ⟨m2.last_memory_index + t.get_size + t.get_size⟩)) ∧
    (op ≠ .Ge → op ≠ .Gt →
      ∀ f, Instruction.from_token_binary op = some f →
      make_instruction (fuel + 1) (.BinaryOp op l r pt) g0 vs0 m0 =
        .ok (.Index m2.last_memory_index t,
          g2.push (f lv rv)
            (some (m2.last_memory_index, t.get_size),
              m2.last_memory_index + t.get_size),
          vs2, ⟨m2.last_memory_index + t.get_size⟩)) := by
  refine ⟨?_, ?_, ?_⟩
  · intro hop; subst hop
    simp [make_instruction, hl, hr, ht, Memory.allocate, except_bind_ok]
  · intro hop; subst hop
    simp [make_instruction, hl, hr, ht, Memory.allocate, except_bind_ok]
  · intro h1 h2 f hf
    simp [make_instruction, hl, hr, ht, Memory.allocate, except_bind_ok,
      h1, h2, hf]

/-- Claim C9 (witness): `5 >= 3` emits `Lt(Num(5), Num(3))` into offset 0 and
`LNot(Index(0))` into offset 1, whose slot is the result. -/
theorem ge_gt_desugaring_witness :
    make_instruction 2
      (.BinaryOp .Ge (.Number (.Number 5)) (.Number (.Number 3)) .Boolean)
      emptyGen (.scope [] Option.none) ⟨0⟩ =
      .ok (.Index 1 ValType.Boolean,
        (emptyGen.push (.Lt (.Num 5) (.Num 3)) (some (0, 1), 1)).push
          (.LNot (.Index 0 .Boolean)) (some (1, 1), 2),
        .scope [] Option.none, ⟨2⟩) := by
  have h := (ge_gt_desugaring 1 .Ge (.Number (.Number 5))
    (.Number (.Number 3)) .Boolean emptyGen emptyGen emptyGen
    (.scope [] Option.none) (.scope [] Option.none) (.scope [] Option.none)
    ⟨0⟩ ⟨0⟩ ⟨0⟩ (.Num 5) (.Num 3) .Boolean rfl rfl rfl).1 rfl
  simpa [ValType.get_size] using h

/-- Claim C10.  In an `ezout` (`Print`) statement every argument whose static
value has type `Char` is lowered to an `Ascii` instruction, and every other
argument to a `Print` instruction, with no destination; the `Print` node
itself delegates to the per-argument loop (`run_print`) and yields `None`. -/
theorem print_char_args_use_ascii (fuel : Nat) (e : Node) (rest : List Node)
    (g0 g1 : CodeGenerator) (vs0 vs1 : Variables) (m0 m1 : Memory) (v : Val)
    (he : make_instruction fuel e g0 vs0 m0 = .ok (v, g1, vs1, m1)) :
    (make_instruction (fuel + 1) (.Print (e :: rest)) g0 vs0 m0 =
      do
        let (g, vars, memory) ←
          run_print (make_instruction fuel) (e :: rest) g0 vs0 m0
        Except.ok (Val.None, g, vars, memory)) ∧
    (v.typeOf = ValType.Char →
      run_print (make_instruction fuel) (e :: rest) g0 vs0 m0 =
        run_print (make_instruction fuel) rest
          (g1.push (.Ascii v) (Option.none, m1.last_memory_index)) vs1 m1) ∧
    (v.typeOf ≠ ValType.Char →
      run_print (make_instruction fuel) (e :: rest) g0 vs0 m0 =
        run_print (make_instruction fuel) rest
          (g1.push (.Print v) (Option.none, m1.last_memory_index)) vs1
          m1) := by
  refine ⟨rfl, ?_, ?_⟩
  · intro hc; simp [run_print, he, hc, except_bind_ok]
  · intro hc; simp [run_print, he, hc, except_bind_ok]

/-- Claim C10 (witness): a character literal argument of `ezout` becomes
`Ascii`, a number literal becomes `Print`. -/
theorem print_char_args_use_ascii_witness :
    (run_print (make_instruction 1) [Node.Char (.Char 97)] emptyGen
        (.scope [] Option.none) ⟨0⟩ =
      run_print (make_instruction 1) []
        (emptyGen.push (.Ascii (.Char 97)) (Option.none, 0))
        (.scope [] Option.none) ⟨0⟩) ∧
    (run_print (make_instruction 1) [Node.Number (.Number 7)] emptyGen
        (.scope [] Option.none) ⟨0⟩ =
      run_print (make_instruction 1) []
        (emptyGen.push (.Print (.Num 7)) (Option.none, 0))
        (.scope [] Option.none) ⟨0⟩) :=
  ⟨(print_char_args_use_ascii 1 (Node.Char (.Char 97)) [] emptyGen emptyGen
      (.scope [] Option.none) (.scope [] Option.none) ⟨0⟩ ⟨0⟩ (.Char 97)
      rfl).2.1 rfl,
   (print_char_args_use_ascii 1 (Node.Number (.Number 7)) [] emptyGen
      emptyGen (.scope [] Option.none) (.scope [] Option.none) ⟨0⟩ ⟨0⟩
      (.Num 7) rfl).2.2 (by decide)⟩

/-! ## Preprocessor, translated from `src/core/preprocessor.rs` -/

/-- Failure modes of the preprocessor embedding: an `Error` value kind,
`external` for the directives whose behavior depends on the filesystem and
the lexer (`use`, and `replace` with a string replacement) — both external
collaborators per the spec — and `panic` for unreachable paths and fuel
exhaustion. -/
inductive PpErr where
  | err (t : ErrorType)
  | external
  | panic
deriving DecidableEq

/-- The fixed-bound token scan of the `replace` directive
(`src/core/preprocessor.rs` lines 97-101): `for i in 0..tokens.len()`
computed once, splicing the replacement at every position equal to the
find token. -/
def replace_pass (find : TokenType) (repl : List TokenType) :
    Nat → Nat → List TokenType → List TokenType
  | 0, _, toks => toks
  | k + 1, i, toks =>
      let toks2 :=
        if toks.get? i = some find then
          toks.take i ++ repl ++ toks.drop (i + 1)
        else toks
      replace_pass find repl k (i + 1) toks2

/-- The preprocessor loop (`pub fn preprocess`,
`src/core/preprocessor.rs` lines 8-235), translated directive by directive.
State: the token list (tags only; positions are metadata), the cursor `i`,
the declared-symbol set, and the conditional frames `ifs` with the innermost
frame at the head (`None` = active/declared, `Some n` = inactive with the
recorded start position `n`).  `drain(a..=b)` is `take a ++ drop (b+1)`. -/
def preprocessGo : Nat → List TokenType → Nat → List String →
    List (Option Nat) → Except PpErr (List TokenType)
  | 0, _, _, _, _ => .error .panic
  | fuel + 1, tokens, i, declared, ifs =>
      if i < tokens.length then
        match tokens.get? i with
        | Option.none => .error .panic
        | some tok =>
            match tok with
            | .PreprocessorStatement stmt =>
                if stmt = "use" then .error .external
                else if stmt = "replace" then
                  match tokens.get? (i + 1) with
                  | Option.none => .error (.err .SyntaxError)
                  | some find =>
                      match tokens.get? (i + 2) with
                      | Option.none => .error (.err .SyntaxError)
                      | some rep =>
                          match rep with
                          | .String _ => .error .external
                          | _ =>
                              let toks2 := tokens.take i ++ tokens.drop (i + 3)
                              let toks3 :=
                                replace_pass find [rep] toks2.length 0 toks2
                              preprocessGo fuel toks3 i declared ifs
                else if stmt = "declare" then
                  match tokens.get? (i + 1) with
                  | Option.none => .error (.err .SyntaxError)
                  | some t =>
                      match t with
                      | .Identifier ident =>
                          preprocessGo fuel
                            (tokens.take i ++ tokens.drop (i + 2)) i
                            (ident :: declared) ifs
                      | _ => .error (.err .SyntaxError)
                else if stmt = "ifdeclared" then
                  match tokens.get? (i + 1) with
                  | Option.none => .error (.err .SyntaxError)
                  | some t =>
                      match t with
                      | .Identifier ident =>
                          let frame :=
                            if declared.contains ident then Option.none
                            else some i
                          preprocessGo fuel
                            (tokens.take i ++ tokens.drop (i + 2)) i declared
                            (frame :: ifs)
                      | _ => .error (.err .SyntaxError)
                else if stmt = "else" then
                  match ifs with
                  | [] => .error (.err .SyntaxError)
                  | idx :: restIfs =>
                      match idx with
                      | some n =>
                          preprocessGo fuel
                            (tokens.take n ++ tokens.drop (i + 1)) i declared
                            (Option.none :: restIfs)
                      | Option.none =>
                          preprocessGo fuel
                            (tokens.take i ++ tokens.drop (i + 1)) i declared
                            (some i :: restIfs)
                else if stmt = "endif" then
                  match ifs with
                  | [] => .error (.err .SyntaxError)
                  | idx :: restIfs =>
                      match idx with
                      | some n =>
                          preprocessGo fuel
                            (tokens.take n ++ tokens.drop (i + 1)) i declared
                            restIfs
                      | Option.none =>
                          preprocessGo fuel
                            (tokens.take i ++ tokens.drop (i + 1)) i declared
                            restIfs
                else if stmt = "error" then
                  match tokens.get? (i + 1) with
                  | Option.none => .error (.err .SyntaxError)
                  | some t =>
                      match t with
                      | .String _ =>
                          match ifs with
                          | [] => .error (.err .PreprocessorError)
                          | Option.none :: _ =>
                              .error (.err .PreprocessorError)
                          | some _ :: _ =>
                              preprocessGo fuel
                                (tokens.take i ++ tokens.drop (i + 2)) i
                                declared ifs
                      | _ => .error (.err .SyntaxError)
                else .error .panic
            | _ => preprocessGo fuel tokens (i + 1) declared ifs
      else
        match ifs with
        | [] => .ok tokens
        | _ :: _ => .error (.err .SyntaxError)

/-- Entry point of the preprocessor: empty declared set, no frames. -/
def preprocess (fuel : Nat) (tokens : List TokenType) :
    Except PpErr (List TokenType) :=
  preprocessGo fuel tokens 0 [] []

/-- The `else` directive as worded by claim C6 and the spec, for comparison
with the source: frames carry an explicit active flag and the `ifdeclared`
position; on `else`, an active frame "drops the tokens between the matching
`ifdeclared` and the `else`" and becomes inactive, an inactive frame just
consumes the `else` token and becomes active.  All other directives behave
as in the source (`endif` drops the guarded region of an inactive frame). -/
def preprocessClaimGo : Nat → List TokenType → Nat → List String →
    List (Bool × Nat) → Except PpErr (List TokenType)
  | 0, _, _, _, _ => .error .panic
  | fuel + 1, tokens, i, declared, ifs =>
      if i < tokens.length then
        match tokens.get? i with
        | Option.none => .error .panic
        | some tok =>
            match tok with
            | .PreprocessorStatement stmt =>
                if stmt = "use" then .error .external
                else if stmt = "replace" then
                  match tokens.get? (i + 1) with
                  | Option.none => .error (.err .SyntaxError)
                  | some find =>
                      match tokens.get? (i + 2) with
                      | Option.none => .error (.err .SyntaxError)
                      | some rep =>
                          match rep with
                          | .String _ => .error .external
                          | _ =>
                              let toks2 := tokens.take i ++ tokens.drop (i + 3)
                              let toks3 :=
                                replace_pass find [rep] toks2.length 0 toks2
                              preprocessClaimGo fuel toks3 i declared ifs
                else if stmt = "declare" then
                  match tokens.get? (i + 1) with
                  | Option.none => .error (.err .SyntaxError)
                  | some t =>
                      match t with
                      | .Identifier ident =>
                          preprocessClaimGo fuel
                            (tokens.take i ++ tokens.drop (i + 2)) i
                            (ident :: declared) ifs
                      | _ => .error (.err .SyntaxError)
                else if stmt = "ifdeclared" then
                  match tokens.get? (i + 1) with
                  | Option.none => .error (.err .SyntaxError)
                  | some t =>
                      match t with
                      | .Identifier ident =>
                          preprocessClaimGo fuel
                            (tokens.take i ++ tokens.drop (i + 2)) i declared
                            ((declared.contains ident, i) :: ifs)
                      | _ => .error (.err .SyntaxError)
                else if stmt = "else" then
                  match ifs with
                  | [] => .error (.err .SyntaxError)
                  | (active, n) :: restIfs =>
                      if active then
                        -- claim: drop the tokens between the matching
                        -- `ifdeclared` and the `else`, mark inactive
                        preprocessClaimGo fuel
                          (tokens.take n ++ tokens.drop (i + 1)) i declared
                          ((false, n) :: restIfs)
                      else
                        -- claim: simply consume the `else`, mark active
                        preprocessClaimGo fuel
                          (tokens.take i ++ tokens.drop (i + 1)) i declared
                          ((true, n) :: restIfs)
                else if stmt = "endif" then
                  match ifs with
                  | [] => .error (.err .SyntaxError)
                  | (active, n) :: restIfs =>
                      if active then
                        preprocessClaimGo fuel
                          (tokens.take i ++ tokens.drop (i + 1)) i declared
                          restIfs
                      else
                        preprocessClaimGo fuel
                          (tokens.take n ++ tokens.drop (i + 1)) i declared
                          restIfs
                else if stmt = "error" then
                  match tokens.get? (i + 1) with
                  | Option.none => .error (.err .SyntaxError)
                  | some t =>
                      match t with
                      | .String _ =>
                          match ifs with
                          | [] => .error (.err .PreprocessorError)
                          | (true, _) :: _ =>
                              .error (.err .PreprocessorError)
                          | (false, _) :: _ =>
                              preprocessClaimGo fuel
                                (tokens.take i ++ tokens.drop (i + 2)) i
                                declared ifs
                      | _ => .error (.err .SyntaxError)
                else .error .panic
            | _ => preprocessClaimGo fuel tokens (i + 1) declared ifs
      else
        match ifs with
        | [] => .ok tokens
        | _ :: _ => .error (.err .SyntaxError)

/-- Entry point of the claim-worded preprocessor variant. -/
def preprocessClaim (fuel : Nat) (tokens : List TokenType) :
    Except PpErr (List TokenType) :=
  preprocessClaimGo fuel tokens 0 [] []

/-- Claim C6 (counterexample).  On
`!declare DBG  !ifdeclared DBG  1  !else  2  !endif` the source keeps the
guarded token `1` and drops the else-branch (`ok [1]`), while the behavior
worded by the claim (drop the guard region at an active `else`, then drop
the tokens guarded by the now-inactive frame at `endif`) yields `ok []`:
the claim has the two `else` cases swapped. -/
theorem else_directive_claim_differs :
    preprocess 20 [.PreprocessorStatement "declare", .Identifier "DBG",
        .PreprocessorStatement "ifdeclared", .Identifier "DBG",
        .Number 1, .PreprocessorStatement "else", .Number 2,
        .PreprocessorStatement "endif"] = .ok [.Number 1] ∧
    preprocessClaim 20 [.PreprocessorStatement "declare", .Identifier "DBG",
        .PreprocessorStatement "ifdeclared", .Identifier "DBG",
        .Number 1, .PreprocessorStatement "else", .Number 2,
        .PreprocessorStatement "endif"] = .ok [] ∧
    Except.ok (ε := PpErr) ([] : List TokenType) ≠ .ok [.Number 1] :=
  ⟨rfl, rfl, by simp⟩

/-- Claim C6 (amended).  When the preprocessor meets an `else` whose
innermost frame is inactive (`Some n`, recording where the guarded region
starts), it drops the tokens from `n` through the `else` inclusive and marks
the frame active; when the innermost frame is active (`None`), it simply
removes the `else` token and marks the frame inactive, recording the `else`
position (so that the matching `endif` later drops the else-branch). -/
theorem else_directive_behavior (fuel i n : Nat) (toks : List TokenType)
    (declared : List String) (restIfs : List (Option Nat))
    (hi : i < toks.length)
    (htok : toks.get? i = some (.PreprocessorStatement "else")) :
    (preprocessGo (fuel + 1) toks i declared (some n :: restIfs) =
      preprocessGo fuel (toks.take n ++ toks.drop (i + 1)) i declared
        (Option.none :: restIfs)) ∧
    (preprocessGo (fuel + 1) toks i declared (Option.none :: restIfs) =
      preprocessGo fuel (toks.take i ++ toks.drop (i + 1)) i declared
        (some i :: restIfs)) := by
  have h2 : toks[i]? = some (TokenType.PreprocessorStatement "else") := by
    rw [← List.get?_eq_getElem?]; exact htok
  have h3 : toks[i] = TokenType.PreprocessorStatement "else" := by
    rw [List.getElem?_eq_getElem hi] at h2
    exact Option.some.inj h2
  constructor <;> simp +decide [preprocessGo, hi, htok, h3]

/-- Claim C6 (witness): the amended `else` behavior at a concrete state. -/
theorem else_directive_behavior_witness :
    (preprocessGo 3 [.Number 1, .PreprocessorStatement "else", .Number 2] 1
        [] [some 0] =
      preprocessGo 2 [.Number 2] 1 [] [Option.none]) ∧
    (preprocessGo 3 [.Number 1, .PreprocessorStatement "else", .Number 2] 1
        [] [Option.none] =
      preprocessGo 2 [.Number 1, .Number 2] 1 [] [some 1]) := by
  have h := else_directive_behavior 2 1 0
    [.Number 1, .PreprocessorStatement "else", .Number 2] [] []
    (by decide) (by decide)
  exact ⟨h.1, h.2⟩

/-! ## Inline expansion, translated from `src/parser.rs` lines 1328-1561 -/

namespace ParserAst

/-- AST nodes as used by `src/parser.rs` (an earlier `Node` shape than
`src/utils/node.rs`: `FuncDef` carries an inline flag, `Lambda` exists,
operator nodes carry no result type).  `Token` payloads are kept as
`TokenType`; positions are dropped. -/
inductive Node where
  | FuncDef (name : TokenType) (params : List (TokenType × PType))
      (body : Node) (ret : PType) (inl : Bool)
  | Statements (ns : List Node)
  | StructConstructor (name : TokenType) (fields : List (TokenType × Node))
  | Call (name : TokenType) (args : List Node)
  | Print (ns : List Node)
  | Array (ns : List Node)
  | Ascii (ns : List Node)
  | Struct (name : TokenType)
  | IndexAssign (tok : TokenType) (n1 n2 : Node)
  | DerefAssign (n1 n2 : Node)
  | If (n1 n2 : Node) (n3 : Option Node)
  | While (n1 n2 : Node)
  | BinaryOp (op : TokenType) (n1 n2 : Node)
  | Number (tok : TokenType)
  | Boolean (tok : TokenType)
  | Index (tok : TokenType) (n : Node)
  | Lambda (params : List (TokenType × PType)) (n : Node) (ret : PType)
  | Ref (n : Node)
  | Deref (n : Node)
  | Return (n : Node)
  | UnaryOp (op : TokenType) (n : Node)
  | VarAssign (tok : TokenType) (n : Node) (t : PType)
  | VarReassign (tok : TokenType) (n : Node)
  | VarAccess (tok : TokenType)
  | String (tok : TokenType)
  | Input
  | Ternary (n1 n2 n3 : Node)
  | None
  | Char (c : Int)
  | For (n1 n2 n3 n4 : Node)
  | Expanded (ns : List Node) (t : PType)

/-- First-`Some` scan over children, the
`if let a @ Some(_) = find_functions(n) { return a }` loops of
`find_functions`. -/
def firstSome (f : Node → Option (List Node)) :
    List Node → Option (List Node)
  | [] => Option.none
  | n :: rest =>
      match f n with
      | some a => some a
      | Option.none => firstSome f rest

/-- `find_functions` of `expand_inline` (`src/parser.rs` lines 1329-1414):
collects every `inline`-flagged function definition, inner definitions
first.  The fuel argument only forces termination of the embedding; the
`Expanded` arm is `unreachable!()` in the source (parser output never
contains it) and is mapped to `none` like the exhausted-fuel sentinel. -/
def find_functions : Nat → Node → Option (List Node)
  | 0, _ => Option.none
  | fuel + 1, node =>
      match node with
      | .FuncDef name params body ret true =>
          some
            (match find_functions fuel body with
            | some nodes => nodes ++ [Node.FuncDef name params body ret true]
            | Option.none => [Node.FuncDef name params body ret true])
      | .Statements ns =>
          some
            (ns.foldl
              (fun acc n =>
                match find_functions fuel n with
                | some i => acc ++ i
                | Option.none => acc)
              [])
      | .StructConstructor _ fields =>
          firstSome (find_functions fuel) (fields.map Prod.snd)
      | .Call _ ns => firstSome (find_functions fuel) ns
      | .Print ns => firstSome (find_functions fuel) ns
      | .Array ns => firstSome (find_functions fuel) ns
      | .Ascii ns => firstSome (find_functions fuel) ns
      | .Struct _ => Option.none
      | .IndexAssign _ n1 n2 =>
          match find_functions fuel n1 with
          | some a => some a
          | Option.none => find_functions fuel n2
      | .DerefAssign n1 n2 =>
          match find_functions fuel n1 with
          | some a => some a
          | Option.none => find_functions fuel n2
      | .If n1 n2 Option.none =>
          match find_functions fuel n1 with
          | some a => some a
          | Option.none => find_functions fuel n2
      | .While n1 n2 =>
          match find_functions fuel n1 with
          | some a => some a
          | Option.none => find_functions fuel n2
      | .BinaryOp _ n1 n2 =>
          match find_functions fuel n1 with
          | some a => some a
          | Option.none => find_functions fuel n2
      | .Number _ => Option.none
      | .Boolean _ => Option.none
      | .Index _ n => find_functions fuel n
      | .Lambda _ n _ => find_functions fuel n
      | .Ref n => find_functions fuel n
      | .Deref n => find_functions fuel n
      | .Return n => find_functions fuel n
      | .FuncDef _ _ n _ false => find_functions fuel n
      | .UnaryOp _ n => find_functions fuel n
      | .VarAssign _ n _ => find_functions fuel n
      | .VarReassign _ n => find_functions fuel n
      | .VarAccess _ => Option.none
      | .String _ => Option.none
      | .Input => Option.none
      | .Ternary n1 n2 n3 =>
          match find_functions fuel n1 with
          | some a => some a
          | Option.none =>
              match find_functions fuel n2 with
              | some a => some a
              | Option.none => find_functions fuel n3
      | .If n1 n2 (some n3) =>
          match find_functions fuel n1 with
          | some a => some a
          | Option.none =>
              match find_functions fuel n2 with
              | some a => some a
              | Option.none => find_functions fuel n3
      | .None => Option.none
      | .Char _ => Option.none
      | .For n1 n2 n3 n4 =>
          match find_functions fuel n1 with
          | some a => some a
          | Option.none =>
              match find_functions fuel n2 with
              | some a => some a
              | Option.none =>
                  match find_functions fuel n3 with
                  | some a => some a
                  | Option.none => find_functions fuel n4
      | .Expanded _ _ => Option.none

/-- `remove_inline` of `expand_inline` (`src/parser.rs` lines 1416-1471):
replaces every `inline`-flagged definition with a no-op `None` node.  The
`Expanded` arm is `unreachable!()` in the source and mapped to the identity,
like the exhausted-fuel sentinel. -/
def remove_inline : Nat → Node → Node
  | 0, n => n
  | fuel + 1, node =>
      match node with
      | .FuncDef _ _ _ _ true => .None
      | .Struct name => .Struct name
      | .Call name ns => .Call name (ns.map (remove_inline fuel))
      | .Statements ns => .Statements (ns.map (remove_inline fuel))
      | .Print ns => .Print (ns.map (remove_inline fuel))
      | .Array ns => .Array (ns.map (remove_inline fuel))
      | .Ascii ns => .Ascii (ns.map (remove_inline fuel))
      | .StructConstructor name fields =>
          .StructConstructor name
            (fields.map (fun p => (p.1, remove_inline fuel p.2)))
      | .IndexAssign tok n1 n2 =>
          .IndexAssign tok (remove_inline fuel n1) (remove_inline fuel n2)
      | .DerefAssign n1 n2 =>
          .DerefAssign (remove_inline fuel n1) (remove_inline fuel n2)
      | .If n1 n2 Option.none =>
          .If (remove_inline fuel n1) (remove_inline fuel n2) Option.none
      | .While n1 n2 =>
          .While (remove_inline fuel n1) (remove_inline fuel n2)
      | .BinaryOp op n1 n2 =>
          .BinaryOp op (remove_inline fuel n1) (remove_inline fuel n2)
      | .String tok => .String tok
      | .Number tok => .Number tok
      | .Boolean tok => .Boolean tok
      | .Index tok n => .Index tok (remove_inline fuel n)
      | .Lambda params n ret => .Lambda params (remove_inline fuel n) ret
      | .Ref n => .Ref (remove_inline fuel n)
      | .Deref n => .Deref (remove_inline fuel n)
      | .Return n => .Return (remove_inline fuel n)
      | .FuncDef a b n c false => .FuncDef a b (remove_inline fuel n) c false
      | .UnaryOp op n => .UnaryOp op (remove_inline fuel n)
      | .VarAssign tok n t => .VarAssign tok (remove_inline fuel n) t
      | .VarReassign tok n => .VarReassign tok (remove_inline fuel n)
      | .VarAccess tok => .VarAccess tok
      | .Input => .Input
      | .Ternary n1 n2 n3 =>
          .Ternary (remove_inline fuel n1) (remove_inline fuel n2)
            (remove_inline fuel n3)
      | .If n1 n2 (some n3) =>
          .If (remove_inline fuel n1) (remove_inline fuel n2)
            (some (remove_inline fuel n3))
      | .None => .None
      | .Char c => .Char c
      | .For n1 n2 n3 n4 =>
          .For (remove_inline fuel n1) (remove_inline fuel n2)
            (remove_inline fuel n3) (remove_inline fuel n4)
      | .Expanded ns t => .Expanded ns t

/-- `insert_function` of `expand_inline` (`src/parser.rs` lines 1473-1546):
a call whose name matches a collected function is replaced by
`Expanded([VarAssign(param_i, arg_i, type_i)…, body], return_type)`; a call
to any other name returns at once (its arguments are not traversed), and
the freshly inserted `Expanded` body is not traversed either. -/
def insert_function : Nat → List Node → Node → Node
  | 0, _, n => n
  | fuel + 1, functions, node =>
      match node with
      | .Call name args =>
          match functions.find? (fun f =>
            match f with
            | .FuncDef n _ _ _ _ => decide (n = name)
            | _ => false) with
          | Option.none => .Call name args
          | some f =>
              match f with
              | .FuncDef _ params body ret _ =>
                  .Expanded
                    ((params.zip args).map
                      (fun pa => Node.VarAssign pa.1.1 pa.2 pa.1.2) ++ [body])
                    ret
              | _ => .Call name args
      | .Statements ns => .Statements (ns.map (insert_function fuel functions))
      | .Print ns => .Print (ns.map (insert_function fuel functions))
      | .Array ns => .Array (ns.map (insert_function fuel functions))
      | .Ascii ns => .Ascii (ns.map (insert_function fuel functions))
      | .StructConstructor name fields =>
          .StructConstructor name
            (fields.map (fun p => (p.1, insert_function fuel functions p.2)))
      | .IndexAssign tok n1 n2 =>
          .IndexAssign tok (insert_function fuel functions n1)
            (insert_function fuel functions n2)
      | .DerefAssign n1 n2 =>
          .DerefAssign (insert_function fuel functions n1)
            (insert_function fuel functions n2)
      | .If n1 n2 Option.none =>
          .If (insert_function fuel functions n1)
            (insert_function fuel functions n2) Option.none
      | .While n1 n2 =>
          .While (insert_function fuel functions n1)
            (insert_function fuel functions n2)
      | .BinaryOp op n1 n2 =>
          .BinaryOp op (insert_function fuel functions n1)
            (insert_function fuel functions n2)
      | .Struct name => .Struct name
      | .String tok => .String tok
      | .Number tok => .Number tok
      | .Boolean tok => .Boolean tok
      | .Index tok n => .Index tok (insert_function fuel functions n)
      | .Lambda params n ret =>
          .Lambda params (insert_function fuel functions n) ret
      | .Ref n => .Ref (insert_function fuel functions n)
      | .Deref n => .Deref (insert_function fuel functions n)
      | .Return n => .Return (insert_function fuel functions n)
      | .FuncDef a b n c inl =>
          .FuncDef a b (insert_function fuel functions n) c inl
      | .UnaryOp op n => .UnaryOp op (insert_function fuel functions n)
      | .VarAssign tok n t =>
          .VarAssign tok (insert_function fuel functions n) t
      | .VarReassign tok n =>
          .VarReassign tok (insert_function fuel functions n)
      | .VarAccess tok => .VarAccess tok
      | .Input => .Input
      | .Ternary n1 n2 n3 =>
          .Ternary (insert_function fuel functions n1)
            (insert_function fuel functions n2)
            (insert_function fuel functions n3)
      | .If n1 n2 (some n3) =>
          .If (insert_function fuel functions n1)
            (insert_function fuel functions n2)
            (some (insert_function fuel functions n3))
      | .None => .None
      | .Char c => .Char c
      | .For n1 n2 n3 n4 =>
          .For (insert_function fuel functions n1)
            (insert_function fuel functions n2)
            (insert_function fuel functions n3)
            (insert_function fuel functions n4)
      | .Expanded ns t => .Expanded ns t

/-- `expand_inline` (`src/parser.rs` lines 1328, 1548-1561): collects the
inline definitions, expands inlines inside each collected body against the
unexpanded collection, removes the original definitions, and substitutes
call sites from the expanded collection.  `parse` invokes it with an empty
function list. -/
def expand_inline : Nat → Node → List Node → Node
  | 0, ast, _ => ast
  | fuel + 1, ast, functions =>
      match find_functions fuel ast with
      | some functions2 =>
          let functionsAll := functions ++ functions2
          let functions2exp := functions2.map (fun f =>
            match f with
            | .FuncDef name params body ret inl =>
                Node.FuncDef name params (expand_inline fuel body functionsAll)
                  ret inl
            | other => other)
          let ast2 := remove_inline fuel ast
          insert_function fuel (functions ++ functions2exp) ast2
      | Option.none => insert_function fuel functions ast

/-- Whether a `Call` to the given name occurs anywhere in the tree
(checker used to state the claims; traverses `Expanded` bodies too). -/
def containsCall : Nat → TokenType → Node → Bool
  | 0, _, _ => false
  | fuel + 1, name, node =>
      match node with
      | .Call n args =>
          decide (n = name) || args.any (containsCall fuel name)
      | .Statements ns => ns.any (containsCall fuel name)
      | .Expanded ns _ => ns.any (containsCall fuel name)
      | .FuncDef _ _ body _ _ => containsCall fuel name body
      | .StructConstructor _ fields =>
          fields.any (fun p => containsCall fuel name p.2)
      | .Print ns => ns.any (containsCall fuel name)
      | .Array ns => ns.any (containsCall fuel name)
      | .Ascii ns => ns.any (containsCall fuel name)
      | .IndexAssign _ n1 n2 =>
          containsCall fuel name n1 || containsCall fuel name n2
      | .DerefAssign n1 n2 =>
          containsCall fuel name n1 || containsCall fuel name n2
      | .If n1 n2 Option.none =>
          containsCall fuel name n1 || containsCall fuel name n2
      | .If n1 n2 (some n3) =>
          containsCall fuel name n1 || containsCall fuel name n2 ||
            containsCall fuel name n3
      | .While n1 n2 =>
          containsCall fuel name n1 || containsCall fuel name n2
      | .BinaryOp _ n1 n2 =>
          containsCall fuel name n1 || containsCall fuel name n2
      | .Index _ n => containsCall fuel name n
      | .Lambda _ n _ => containsCall fuel name n
      | .Ref n => containsCall fuel name n
      | .Deref n => containsCall fuel name n
      | .Return n => containsCall fuel name n
      | .UnaryOp _ n => containsCall fuel name n
      | .VarAssign _ n _ => containsCall fuel name n
      | .VarReassign _ n => containsCall fuel name n
      | .Ternary n1 n2 n3 =>
          containsCall fuel name n1 || containsCall fuel name n2 ||
            containsCall fuel name n3
      | .For n1 n2 n3 n4 =>
          containsCall fuel name n1 || containsCall fuel name n2 ||
            containsCall fuel name n3 || containsCall fuel name n4
      | _ => false

/-- The self-recursive inline function
`inline ez f(a: int) -> int { return f(a); }`. -/
def fDef : Node :=
  .FuncDef (.Identifier "f") [(.Identifier "a", .Number)]
    (.Statements [.Return (.Call (.Identifier "f")
      [.VarAccess (.Identifier "a")])])
    .Number true

/-- A program defining the recursive inline `f` and calling it:
`inline ez f(a: int) -> int { return f(a); }  int x = f(7);`. -/
def recAst : Node :=
  .Statements [fDef,
    .VarAssign (.Identifier "x")
      (.Call (.Identifier "f") [.Number (.Number 7)]) .Number]

/-- Claim C4 (code_bug evidence).  The claim says a transitively
self-calling inline function is rejected with a `RecursionError`.
`expand_inline` performs no cycle detection and cannot fail at all (it
returns `()` in the source and a plain `Node` here; `RecursionError` is
declared in `src/utils/error.rs` but never constructed anywhere in the
source).  On the self-recursive `f` the pass terminates normally after one
level of expansion and its output still contains a `Call` to the inline
`f`. -/
theorem inline_recursion_not_rejected :
    find_functions 20 recAst = some [fDef] ∧
    containsCall 20 (.Identifier "f") (expand_inline 20 recAst []) = true :=
  ⟨rfl, rfl⟩

/-- The chain of inline functions: `k` returns 1. -/
def kDef : Node :=
  .FuncDef (.Identifier "k") []
    (.Statements [.Return (.Number (.Number 1))]) .Number true

/-- The chain of inline functions: `h` calls `k`. -/
def hDef : Node :=
  .FuncDef (.Identifier "h") []
    (.Statements [.Return (.Call (.Identifier "k") [])]) .Number true

/-- The chain of inline functions: `g` calls `h`. -/
def gDef : Node :=
  .FuncDef (.Identifier "g") []
    (.Statements [.Return (.Call (.Identifier "h") [])]) .Number true

/-- A non-recursive program with a three-link inline chain and a call to its
head: `inline k; inline h { k() }; inline g { h() }; int y = g();`. -/
def chainAst : Node :=
  .Statements [kDef, hDef, gDef,
    .VarAssign (.Identifier "y") (.Call (.Identifier "g") []) .Number]

/-- Claim C5 (code_bug evidence).  The claim says the expanded AST contains
no `Call` to an inline function.  In `expand_inline`, each collected body is
expanded against the *unexpanded* collection and freshly inserted `Expanded`
bodies are never re-traversed, so expanding `g` pastes `h`'s unexpanded body
and the inner `Call` to the inline `k` survives into the final AST of this
non-recursive program. -/
theorem chained_inline_call_survives :
    find_functions 20 chainAst = some [kDef, hDef, gDef] ∧
    containsCall 30 (.Identifier "k") (expand_inline 20 chainAst []) = true :=
  ⟨rfl, rfl⟩

end ParserAst

end EZ
